import Mathlib

/-!
# Verification of the waspnest execution core

A shallow embedding of the waspnest orchestration runtime
(`waspnest/core/state.py`, `waspnest/core/skill.py`, `waspnest/core/agent.py`,
`waspnest/hooks.py`) together with proofs and refutations of the
specification's claims about it.

Modelling conventions:
* Python class hierarchies (single inheritance, as used for the pydantic
  payload models) are modelled by `PyType`; `isinstance` is membership of the
  target class in the runtime class's ancestor chain.
* Python dictionaries are modelled as association lists with first-match
  lookup; `dset` re-binds a key, `dupdate a b` is the Python merge
  `{**a, **b}` (later keys win).
* Python exceptions are values of `PyExc`; a function that can raise returns
  `Except`.  A `RecursionError` caused by exceeding the interpreter's stack
  budget is modelled by running recursive code with explicit fuel: entering a
  call with zero fuel raises `PyExc.recursionError`.
* `datetime.now().isoformat()` results are opaque to every claim; they are
  modelled by a counter (`Value.vtime`) threaded through the execution.
-/

namespace Waspnest

/-- A Python class in a single-inheritance chain (the shape of the pydantic
payload models used with the engine): either a class with no relevant parent,
or a subclass of another such class. -/
inductive PyType where
  | root (name : String)
  | sub (name : String) (parent : PyType)
deriving DecidableEq, Repr

/-- The class's name (`__name__`). -/
def PyType.name : PyType → String
  | .root n => n
  | .sub n _ => n

/-- The method-resolution-order chain of a class: itself followed by its
ancestors (excluding `BaseModel`/`object`, which every modelled class has). -/
def PyType.ancestors : PyType → List PyType
  | .root n => [.root n]
  | .sub n p => .sub n p :: p.ancestors

/-- `isinstance` on classes: a runtime class `t` is an instance-type of class
`T` iff `T` occurs in `t`'s ancestor chain. -/
def isinstanceTy (t T : PyType) : Bool := T ∈ t.ancestors

/-- A context/metadata dictionary value.  The engine stores strings, step
numbers and timestamps; callers may store arbitrary objects (`vobj`). -/
inductive Value where
  | vstr (s : String)
  | vnat (n : Nat)
  | vtime (t : Nat)
  | vobj (tag : Nat)
deriving DecidableEq, Repr

/-- A Python `dict[str, Any]` as an association list (unique keys whenever
built by the engine's own operations). -/
abbrev Dict := List (String × Value)

/-- Dictionary lookup (`d.get(k)` / `d[k]`): first matching binding. -/
def dget : Dict → String → Option Value
  | [], _ => none
  | (k', v) :: d, k => if k' = k then some v else dget d k

/-- Dictionary write `d[k] = v`: the new binding shadows and removes any
older binding of the same key. -/
def dset (d : Dict) (k : String) (v : Value) : Dict :=
  (k, v) :: d.filter (fun p => p.1 != k)

/-- The Python merge `{**a, **b}`: start from `a`, write every binding of `b`
in order (later bindings of `b` win). -/
def dupdate (a b : Dict) : Dict := b.foldl (fun d p => dset d p.1 p.2) a

@[simp] theorem dget_nil (k : String) : dget [] k = none := rfl

theorem dget_cons (k' : String) (v : Value) (d : Dict) (k : String) :
    dget ((k', v) :: d) k = if k' = k then some v else dget d k := rfl

theorem dget_filter_ne (d : Dict) (k k' : String) (h : k' ≠ k) :
    dget (d.filter (fun p => p.1 != k')) k = dget d k := by
  induction d with
  | nil => rfl
  | cons p d ih =>
    by_cases hp : p.1 = k'
    · have hpk : p.1 ≠ k := fun hk => h (hp ▸ hk)
      rw [List.filter_cons_of_neg (by simp [hp]), ih, dget_cons, if_neg hpk]
    · rw [List.filter_cons_of_pos (by exact bne_iff_ne.mpr hp),
        dget_cons, dget_cons, ih]

theorem dget_dset (d : Dict) (k : String) (v : Value) (k' : String) :
    dget (dset d k v) k' = if k = k' then some v else dget d k' := by
  unfold dset
  rw [dget_cons]
  by_cases h : k = k'
  · simp [h]
  · rw [if_neg h, if_neg h, dget_filter_ne d k' k h]

/-- Keys of a dictionary. -/
def dkeys (d : Dict) : List String := d.map Prod.fst

theorem dget_eq_none_of_not_mem_keys (d : Dict) (k : String)
    (h : k ∉ dkeys d) : dget d k = none := by
  induction d with
  | nil => rfl
  | cons p d ih =>
    have hp : p.1 ≠ k := fun he => h (by simp [dkeys, he])
    have hd : k ∉ dkeys d := fun hm => h (by simp [dkeys] at hm ⊢; exact Or.inr hm)
    rw [dget_cons, if_neg hp, ih hd]

/-- Lookup in a merged dictionary: a binding of `b` wins, otherwise the
binding of `a` is visible — provided `b` binds each key at most once (always
true of Python keyword-argument dictionaries). -/
theorem dget_dupdate (a b : Dict) (hb : (dkeys b).Nodup) (k : String) :
    dget (dupdate a b) k = (dget b k).orElse (fun _ => dget a k) := by
  induction b generalizing a with
  | nil => rfl
  | cons p b ih =>
    have hb2 : (p.1 :: dkeys b).Nodup := hb
    have hnd := List.nodup_cons.mp hb2
    have hb' : (dkeys b).Nodup := hnd.2
    have hp : p.1 ∉ dkeys b := hnd.1
    have step : dupdate a (p :: b) = dupdate (dset a p.1 p.2) b := rfl
    rw [step, ih _ hb']
    by_cases h : p.1 = k
    · subst h
      have hbk : dget b p.1 = none := dget_eq_none_of_not_mem_keys b p.1 hp
      rw [hbk, dget_cons, if_pos rfl, dget_dset, if_pos rfl]
      rfl
    · rw [dget_cons, if_neg h, dget_dset, if_neg h]

/-- Merging preserves presence of a key. -/
theorem dget_dupdate_isSome (a b : Dict) (k : String)
    (h : (dget a k).isSome) : (dget (dupdate a b) k).isSome := by
  induction b generalizing a with
  | nil => simpa [dupdate] using h
  | cons p b ih =>
    have step : dupdate a (p :: b) = dupdate (dset a p.1 p.2) b := rfl
    rw [step]
    apply ih
    rw [dget_dset]
    by_cases hpk : p.1 = k <;> simp [hpk, h]

/-- A key merged in stays present. -/
theorem dget_dupdate_isSome_right (a b : Dict) (k : String)
    (h : (dget b k).isSome) : (dget (dupdate a b) k).isSome := by
  induction b generalizing a with
  | nil => simp [dget] at h
  | cons p b ih =>
    have step : dupdate a (p :: b) = dupdate (dset a p.1 p.2) b := rfl
    rw [step]
    by_cases hpk : p.1 = k
    · by_cases hb : (dget b k).isSome
      · exact ih _ hb
      · apply dget_dupdate_isSome
        rw [dget_dset]
        simp [hpk]
    · apply ih
      rw [dget_cons] at h
      simpa [hpk] using h

/-! ## Payload values and `State` (`waspnest/core/state.py`) -/

/-- A Python runtime value as the engine sees a payload: either an instance
of a (pydantic `BaseModel`) class, with a tag distinguishing instances, or
some other object that is not a `BaseModel` (described by its class name). -/
inductive PyVal where
  | model (ty : PyType) (tag : Nat)
  | nonModel (clsName : String)
deriving DecidableEq, Repr

/-- `isinstance(v, BaseModel)`. -/
def PyVal.isBaseModel : PyVal → Bool
  | .model _ _ => true
  | .nonModel _ => false

/-- `type(v).__name__` (for non-models, the stored class name). -/
def PyVal.typeName : PyVal → String
  | .model t _ => t.name
  | .nonModel c => c

/-- `isinstance(v, T)` for a modelled payload class `T`: true iff `v` is a
`BaseModel` instance whose runtime class has `T` in its ancestor chain. -/
def isinstanceV (v : PyVal) (T : PyType) : Bool :=
  match v with
  | .model t _ => isinstanceTy t T
  | .nonModel _ => false

/-- `isinstance(v, (T1, ..., Tn))` — a tuple of classes matches if any one
member matches. -/
def isinstanceAny (v : PyVal) (Ts : List PyType) : Bool :=
  Ts.any (fun T => isinstanceV v T)

/-- The runtime class of a payload, when it is a structured record. -/
def payloadTy : PyVal → Option PyType
  | .model t _ => some t
  | .nonModel _ => none

/-- `State` (`waspnest/core/state.py`): frozen dataclass holding
`data`, `metadata`, `context` (the latter two defaulted to `{}` by
`__post_init__`, modelled by constructing with explicit dictionaries). -/
structure StateV where
  data : PyVal
  metadata : Dict
  context : Dict
deriving DecidableEq, Repr

/-- `State.with_context(**updates)`: a new `State` with the same `data`, a
copy of `metadata` (`.copy()` — value-identical), and the merged context
`{**self.context, **updates}`.  The receiver, a frozen dataclass, is not
modified (in this value-level embedding immutability is intrinsic: the
fields of `s` are untouched terms). -/
def StateV.with_context (s : StateV) (updates : Dict) : StateV :=
  { data := s.data, metadata := s.metadata, context := dupdate s.context updates }

/-- C5: `S.withContext(U)` yields a new instance whose context is the shallow
merge `{**S.context, **U}` (updates win on key collision, stated here at the
level of lookups), whose payload and metadata are carried over unchanged; the
original `S` keeps its own payload, metadata and context (the embedding is
value-level, so the final conjuncts record that `S`'s fields are exactly what
they were). -/
theorem stateWithContext_merge_and_preserves (S : StateV) (U : Dict)
    (hU : (dkeys U).Nodup) :
    (∀ k, dget (S.with_context U).context k =
      ((dget U k).orElse (fun _ => dget S.context k))) ∧
    (S.with_context U).data = S.data ∧
    (S.with_context U).metadata = S.metadata ∧
    S = { data := S.data, metadata := S.metadata, context := S.context } := by
  refine ⟨fun k => ?_, rfl, rfl, rfl⟩
  exact dget_dupdate S.context U hU k

/-- Witness for C5 at a concrete state and update map: the update wins on the
colliding key `"user_id"`, the fresh key `"session"` is added, untouched keys
survive, and payload and metadata are unchanged. -/
theorem stateWithContext_merge_and_preserves_witness :
    ((dkeys [("user_id", Value.vstr "456"), ("session", Value.vnat 7)]).Nodup) ∧
    (∀ k, dget ((StateV.mk (PyVal.model (PyType.root "Query") 0)
        [("source", Value.vstr "test")]
        [("user_id", Value.vstr "123"), ("lang", Value.vstr "en")]).with_context
        [("user_id", Value.vstr "456"), ("session", Value.vnat 7)]).context k =
      ((dget [("user_id", Value.vstr "456"), ("session", Value.vnat 7)] k).orElse
        (fun _ => dget [("user_id", Value.vstr "123"), ("lang", Value.vstr "en")] k))) := by
  refine ⟨by decide, ?_⟩
  exact (stateWithContext_merge_and_preserves _ _ (by decide)).1

/-! ## Exceptions -/

/-- Python exceptions raised by the modelled code. -/
inductive PyExc where
  | typeError (msg : String)
  | valueError (msg : String)
  | runtimeError (msg : String)
  | recursionError
deriving DecidableEq, Repr

/-- `str(e)`, as stored into the context by the dispatch loop. -/
def PyExc.toStr : PyExc → String
  | .typeError m => m
  | .valueError m => m
  | .runtimeError m => m
  | .recursionError => "maximum recursion depth exceeded"

/-! ## Skills (`waspnest/core/skill.py`) -/

/-- The outcome of one call of a skill's `execute` on a state, as the
dispatch loop observes it: a new `State`, `None`, or a raised exception. -/
inductive SkillOutcome where
  | retState (s : StateV)
  | retNone
  | raises (e : PyExc)
deriving DecidableEq, Repr

/-- A skill as the dispatch loop sees it: its `name`, the `input_type`
attribute its `execute` carries when decorated with `@skill` (absent for
undecorated skills), and the behaviour of `execute`. -/
structure SkillM where
  name : String
  input_type : Option PyType
  exec : StateV → SkillOutcome

/-- `Skill.can_handle` (`skill.py` lines 100–105): if `execute` has an
`input_type` attribute, `isinstance(state.data, execute.input_type)`;
otherwise `True`. -/
def SkillM.can_handle (sk : SkillM) (st : StateV) : Bool :=
  match sk.input_type with
  | some T => isinstanceV st.data T
  | none => true

/-- The concrete class `Query` and a subclass of it, used to separate
`isinstance` from exact runtime-type equality. -/
def tyQuery : PyType := PyType.root "Query"

/-- A subclass of `Query` (pydantic models may be subclassed). -/
def tySubQuery : PyType := PyType.sub "SubQuery" tyQuery

/-- A skill declaring input type `Query` whose behaviour is irrelevant to
`can_handle`. -/
def skillQueryCX : SkillM :=
  { name := "QuerySkill", input_type := some tyQuery,
    exec := fun st => SkillOutcome.retState st }

/-- A state whose payload's runtime type is `SubQuery`, a strict subclass of
the declared input type `Query`. -/
def stSubQueryCX : StateV :=
  { data := PyVal.model tySubQuery 0, metadata := [], context := [] }

/-- Counterexample to C2: the claim demands `canHandle` return `false` for
any structured payload whose runtime type is not *exactly* the declared
input type, but `can_handle` uses `isinstance`, which accepts a payload of a
strict subclass: here the payload type is `SubQuery ≠ Query`, yet
`can_handle` returns `true`. -/
theorem canHandle_subclass_counterexample :
    skillQueryCX.can_handle stSubQueryCX = true ∧
    payloadTy stSubQueryCX.data ≠ some tyQuery ∧
    skillQueryCX.input_type = some tyQuery := by
  refine ⟨by decide, by decide, rfl⟩

/-- The amended C2 statement, written from the spec's words with the single
correction the counterexample forces: for a capability with a resolved
contract, `canHandle(state)` is true iff the payload is a structured record
whose runtime type *is an instance of* (equals or is a subclass of) the
declared input type; with no resolvable contract it is true for every
state. -/
def canHandleAmendedSpec (sk : SkillM) (st : StateV) : Prop :=
  match sk.input_type with
  | some T => ∃ t n, st.data = PyVal.model t n ∧ T ∈ t.ancestors
  | none => True

/-- C2 (amended): `Skill.can_handle` coincides with the amended
specification: true exactly on structured payloads whose runtime class chain
contains the declared input type, and permissively true when no contract was
resolved. -/
theorem canHandle_iff_instance_of_declared (sk : SkillM) (st : StateV) :
    sk.can_handle st = true ↔ canHandleAmendedSpec sk st := by
  unfold SkillM.can_handle canHandleAmendedSpec
  cases hin : sk.input_type with
  | none => simp
  | some T =>
    cases hd : st.data with
    | model t n =>
      simp [isinstanceV, isinstanceTy]
    | nonModel c =>
      simp [isinstanceV]

/-! ## The `@skill` decorator (`waspnest/core/skill.py` lines 26–90)

The decorator reads `get_type_hints(func)`; the `state` parameter must be
annotated `State[T]` and the return type `State[U]` where `U` is a single
class or a union.  It stores `input_type` on the wrapper, and `functools.wraps`
copies `func.__annotations__` onto the wrapper, so both annotations remain
introspectable on the decorated method. -/

/-- The type argument of a `State[...]` annotation: a single class or a
union `A | B | ...`. -/
inductive TyExpr where
  | single (t : PyType)
  | union (ts : List PyType)
deriving DecidableEq, Repr

/-- The tuple `output_types` the wrapper derives: `get_args` of a union,
else the one-element tuple. -/
def TyExpr.outputs : TyExpr → List PyType
  | .single t => [t]
  | .union ts => ts

/-- A type annotation as the decorator inspects it: `State[T]` for some type
expression, or anything else (described textually, as `f"{state_type}"`
renders it). -/
inductive Annot where
  | stateOf (te : TyExpr)
  | plain (desc : String)
deriving DecidableEq, Repr

/-- The relevant entries of `get_type_hints(func)` for a skill function. -/
structure FuncSig where
  stateAnn : Annot
  returnAnn : Annot
deriving DecidableEq, Repr

/-- What a skill body may do, from the wrapper's point of view: raise, or
return a value that is either a `State` or not. -/
inductive PyRet where
  | state (s : StateV)
  | nonState (clsName : String)
deriving DecidableEq, Repr

/-- One invocation of the undecorated function body. -/
inductive InnerOutcome where
  | ret (r : PyRet)
  | raises (e : PyExc)
deriving DecidableEq, Repr

/-- An undecorated skill function: its type hints plus the behaviour of its
body (`self` plays no role in the checks and is elided). -/
structure PyFunc where
  sig : FuncSig
  body : StateV → InnerOutcome

/-- An error produced by one wrapper invocation, tagged by which of the
wrapper's `raise` statements produced it (`fromInner` re-raises the body's
own exception; the `bad*Ann` cases are the two annotation-shape checks that
cannot fire for a contract-bearing capability). -/
inductive WrapErr where
  | badStateAnn (desc : String)
  | badReturnAnn (desc : String)
  | inputNotModel (actual : String)
  | inputWrongType (expected : String) (actual : String)
  | notAState (actual : String)
  | outputNotModel (actual : String)
  | outputWrongType (expected : List String) (actual : String)
  | fromInner (e : PyExc)
deriving DecidableEq, Repr

/-- Does the tag denote one of the five type-validation failures of the
contract (everything except a re-raised body exception and the two
annotation-shape failures)? -/
def WrapErr.isValidation : WrapErr → Bool
  | .inputNotModel _ => true
  | .inputWrongType _ _ => true
  | .notAState _ => true
  | .outputNotModel _ => true
  | .outputWrongType _ _ => true
  | _ => false

/-- `sep.join(ns)` as Python renders the list of type names. -/
def joinSep (sep : String) : List String → String
  | [] => ""
  | [n] => n
  | n :: ns => n ++ sep ++ joinSep sep ns

/-- The `expected` fragment of the output-type message: the single name, or
`"one of: "` followed by the comma-separated names. -/
def expectedFragment : List String → String
  | [n] => n
  | ns => "one of: " ++ joinSep ", " ns

/-- Each wrapper error rendered as the Python exception the wrapper raises,
with exactly the f-string messages of the source. -/
def WrapErr.render : WrapErr → PyExc
  | .badStateAnn d => .typeError ("State type annotation must be State[T], got " ++ d)
  | .badReturnAnn d => .typeError ("Return type must be State[T], got " ++ d)
  | .inputNotModel a => .typeError ("Input must be a Pydantic model, got " ++ a)
  | .inputWrongType e a => .typeError ("Expected input type " ++ e ++ ", got " ++ a)
  | .notAState a => .typeError ("Skill must return a State, got " ++ a)
  | .outputNotModel a => .typeError ("Output must be a Pydantic model, got " ++ a)
  | .outputWrongType es a => .typeError ("Output must be " ++ expectedFragment es ++ ", got " ++ a)
  | .fromInner e => e

/-- One invocation of the decorated wrapper (`skill.py` lines 40–80), for a
function with the given hints and body: resolve the input type from the
`state` annotation, the output types from the return annotation, check the
incoming payload is a pydantic model of the input type, run the body, check
the result is a `State` whose payload is a pydantic model of one of the
output types, and return it unchanged. -/
def wrapperCall (sig : FuncSig) (body : StateV → InnerOutcome) (st : StateV) :
    Except WrapErr StateV :=
  match sig.stateAnn with
  | .plain d => .error (.badStateAnn d)
  | .stateOf tin =>
    let input_type : PyType :=
      match tin with
      | .single t => t
      | .union ts => ts.headD (PyType.root "object")
    match sig.returnAnn with
    | .plain d => .error (.badReturnAnn d)
    | .stateOf tout =>
      let output_types := tout.outputs
      if !st.data.isBaseModel then
        .error (.inputNotModel st.data.typeName)
      else if !isinstanceV st.data input_type then
        .error (.inputWrongType input_type.name st.data.typeName)
      else
        match body st with
        | .raises e => .error (.fromInner e)
        | .ret (.nonState c) => .error (.notAState c)
        | .ret (.state r) =>
          if !r.data.isBaseModel then
            .error (.outputNotModel r.data.typeName)
          else if !isinstanceAny r.data output_types then
            .error (.outputWrongType (output_types.map PyType.name) r.data.typeName)
          else
            .ok r

/-- The decorated wrapper as an introspectable object: the `input_type`
attribute stored by the decorator, the annotations `functools.wraps` copied
from the original function, and the call behaviour. -/
structure Wrapper where
  input_type : PyType
  annotations : FuncSig
  call : StateV → Except WrapErr StateV

/-- The decoration step (`skill.py` lines 82–90): resolve the input type
from the `state` annotation once, raising when the annotation is not
`State[T]`; on success return the wrapper carrying the stored `input_type`,
the copied annotations and the per-call checking behaviour.  The source
takes `get_args(State[T])[0]`, which for the skills of this repository is a
single class. -/
def skillDecorate (f : PyFunc) : Except PyExc Wrapper :=
  match f.sig.stateAnn with
  | .plain d => .error (.typeError ("State type annotation must be State[T], got " ++ d))
  | .stateOf te =>
    let input_type : PyType :=
      match te with
      | .single t => t
      | .union ts => ts.headD (PyType.root "object")
    .ok { input_type := input_type, annotations := f.sig,
          call := wrapperCall f.sig f.body }

/-- `declaredInputType` read back from a decorated capability: the
`input_type` attribute the decorator stored on the wrapper (asserted
introspectable by the repository's own test). -/
def declaredInputType (w : Wrapper) : PyType := w.input_type

/-- `declaredOutputTypes` read back from a decorated capability: the type
arguments of the return annotation, which `get_type_hints` still reports on
the wrapper because `functools.wraps` copies `__annotations__`. -/
def declaredOutputTypes (w : Wrapper) : Option (List PyType) :=
  match w.annotations.returnAnn with
  | .stateOf te => some te.outputs
  | .plain _ => none

/-- C9: for every capability declared with a contract — a function annotated
`State[I] → State[O]` with `O` a class or a union — decoration succeeds and
both the declared input type and the declared output type list are
recoverable from the decorated instance: the input type from the stored
`input_type` attribute, the output types from the (wraps-preserved) return
annotation. -/
theorem declared_types_recoverable (I : PyType) (te : TyExpr)
    (body : StateV → InnerOutcome) :
    ∃ w, skillDecorate ⟨⟨Annot.stateOf (TyExpr.single I), Annot.stateOf te⟩, body⟩
        = .ok w ∧
      declaredInputType w = I ∧
      declaredOutputTypes w = some te.outputs := by
  refine ⟨_, rfl, rfl, rfl⟩

/-! ### The contract's validation behaviour (C6) -/

/-- `a` occurs as a contiguous substring of `b`. -/
def strInfix (a b : String) : Prop := a.data <:+: b.data

instance (a b : String) : Decidable (strInfix a b) :=
  inferInstanceAs (Decidable (_ <:+: _))

theorem strInfix_parts (pre mid post : String) :
    strInfix mid (pre ++ mid ++ post) := by
  unfold strInfix
  rw [String.data_append, String.data_append]
  exact List.infix_append _ _ _

theorem strInfix_left (l x y : String) (h : strInfix x y) :
    strInfix x (l ++ y) := by
  unfold strInfix at h ⊢
  rw [String.data_append]
  exact h.trans ⟨l.data, [], by simp⟩

theorem strInfix_joinSep (sep : String) (ns : List String) (n : String)
    (h : n ∈ ns) : strInfix n (joinSep sep ns) := by
  induction ns with
  | nil => cases h
  | cons m ns ih =>
    cases ns with
    | nil =>
      have he : n = m := by simpa using h
      subst he
      exact List.infix_refl _
    | cons m2 rest =>
      have hj : joinSep sep (m :: m2 :: rest) = m ++ sep ++ joinSep sep (m2 :: rest) := rfl
      rw [hj]
      rcases List.mem_cons.mp h with he | hm
      · rw [he]
        have : m ++ sep ++ joinSep sep (m2 :: rest)
            = "" ++ m ++ (sep ++ joinSep sep (m2 :: rest)) := by
          simp [String.ext_iff, String.data_append, List.append_assoc]
        rw [this]
        exact strInfix_parts _ _ _
      · exact strInfix_left (m ++ sep) _ _ (ih hm)

theorem strInfix_expectedFragment (ns : List String) (n : String)
    (h : n ∈ ns) : strInfix n (expectedFragment ns) := by
  cases ns with
  | nil => cases h
  | cons m tail =>
    cases tail with
    | nil =>
      have he : n = m := by simpa using h
      subst he
      exact List.infix_refl _
    | cons m2 rest =>
      have hf : expectedFragment (m :: m2 :: rest)
          = "one of: " ++ joinSep ", " (m :: m2 :: rest) := rfl
      rw [hf]
      exact strInfix_left _ _ _ (strInfix_joinSep _ _ _ h)

/-- The type name(s) a validation failure declares as expected. -/
def WrapErr.expectedNames : WrapErr → List String
  | .inputNotModel _ => ["Pydantic model"]
  | .inputWrongType e _ => [e]
  | .notAState _ => ["State"]
  | .outputNotModel _ => ["Pydantic model"]
  | .outputWrongType es _ => es
  | _ => []

/-- The type name a validation failure reports as actually seen. -/
def WrapErr.actualName : WrapErr → String
  | .inputNotModel a => a
  | .inputWrongType _ a => a
  | .notAState a => a
  | .outputNotModel a => a
  | .outputWrongType _ a => a
  | _ => ""

/-- The rendered message text of a wrapper error. -/
def WrapErr.msg (v : WrapErr) : String := v.render.toStr

/-- Every validation failure's message names the expected type(s) and the
actual type. -/
theorem validation_msg_names_types (v : WrapErr) (hv : v.isValidation = true) :
    (∀ n ∈ v.expectedNames, strInfix n v.msg) ∧ strInfix v.actualName v.msg := by
  cases v with
  | inputNotModel a =>
    constructor
    · intro n hn
      have he : n = "Pydantic model" := by
        simpa [WrapErr.expectedNames] using hn
      subst he
      show strInfix "Pydantic model" ("Input must be a Pydantic model, got " ++ a)
      have : "Input must be a Pydantic model, got " ++ a
          = "Input must be a " ++ "Pydantic model" ++ (", got " ++ a) := by
        simp [String.ext_iff, String.data_append, List.append_assoc]
      rw [this]; exact strInfix_parts _ _ _
    · show strInfix a ("Input must be a Pydantic model, got " ++ a)
      have : "Input must be a Pydantic model, got " ++ a
          = "Input must be a Pydantic model, got " ++ a ++ "" := by simp
      rw [this]; exact strInfix_parts _ _ _
  | inputWrongType e a =>
    constructor
    · intro n hn
      have he : n = e := by simpa [WrapErr.expectedNames] using hn
      rw [he]
      show strInfix e ("Expected input type " ++ e ++ ", got " ++ a)
      have : "Expected input type " ++ e ++ ", got " ++ a
          = "Expected input type " ++ e ++ (", got " ++ a) := by
        simp [String.ext_iff, String.data_append, List.append_assoc]
      rw [this]; exact strInfix_parts _ _ _
    · show strInfix a ("Expected input type " ++ e ++ ", got " ++ a)
      have : "Expected input type " ++ e ++ ", got " ++ a
          = ("Expected input type " ++ e ++ ", got ") ++ a ++ "" := by
        simp [String.ext_iff, String.data_append, List.append_assoc]
      rw [this]; exact strInfix_parts _ _ _
  | notAState a =>
    constructor
    · intro n hn
      have he : n = "State" := by simpa [WrapErr.expectedNames] using hn
      subst he
      show strInfix "State" ("Skill must return a State, got " ++ a)
      have : "Skill must return a State, got " ++ a
          = "Skill must return a " ++ "State" ++ (", got " ++ a) := by
        simp [String.ext_iff, String.data_append, List.append_assoc]
      rw [this]; exact strInfix_parts _ _ _
    · show strInfix a ("Skill must return a State, got " ++ a)
      have : "Skill must return a State, got " ++ a
          = "Skill must return a State, got " ++ a ++ "" := by simp
      rw [this]; exact strInfix_parts _ _ _
  | outputNotModel a =>
    constructor
    · intro n hn
      have he : n = "Pydantic model" := by
        simpa [WrapErr.expectedNames] using hn
      subst he
      show strInfix "Pydantic model" ("Output must be a Pydantic model, got " ++ a)
      have : "Output must be a Pydantic model, got " ++ a
          = "Output must be a " ++ "Pydantic model" ++ (", got " ++ a) := by
        simp [String.ext_iff, String.data_append, List.append_assoc]
      rw [this]; exact strInfix_parts _ _ _
    · show strInfix a ("Output must be a Pydantic model, got " ++ a)
      have : "Output must be a Pydantic model, got " ++ a
          = "Output must be a Pydantic model, got " ++ a ++ "" := by simp
      rw [this]; exact strInfix_parts _ _ _
  | outputWrongType es a =>
    constructor
    · intro n hn
      have hn' : n ∈ es := by simpa [WrapErr.expectedNames] using hn
      show strInfix n ("Output must be " ++ expectedFragment es ++ ", got " ++ a)
      have : "Output must be " ++ expectedFragment es ++ ", got " ++ a
          = "Output must be " ++ expectedFragment es ++ (", got " ++ a) := by
        simp [String.ext_iff, String.data_append, List.append_assoc]
      rw [this]
      exact ((strInfix_expectedFragment es n hn').trans
        (by
          rw [String.data_append, String.data_append]
          exact List.infix_append _ _ _))
    · show strInfix a ("Output must be " ++ expectedFragment es ++ ", got " ++ a)
      have : "Output must be " ++ expectedFragment es ++ ", got " ++ a
          = ("Output must be " ++ expectedFragment es ++ ", got ") ++ a ++ "" := by
        simp [String.ext_iff, String.data_append, List.append_assoc]
      rw [this]; exact strInfix_parts _ _ _
  | badStateAnn d => cases hv
  | badReturnAnn d => cases hv
  | fromInner e => cases hv

/-- C6: for a contract-bearing capability (a function annotated
`State[I] → State[O]`) and any transform invocation, the wrapper raises a
typed validation error *exactly when* the incoming payload is not a pydantic
model, or is not an instance of the declared input type, or the body's
result is not a `State`, or the result payload is not a pydantic model, or
is not an instance of any declared output type; every such error's message
names the expected type(s) and the actual type; and on success the body's
result is returned verbatim (no silent coercion), all checks having
passed. -/
theorem contract_validation_exactly (I : PyType) (tout : TyExpr)
    (body : StateV → InnerOutcome) (st : StateV) :
    ((∃ v, wrapperCall ⟨Annot.stateOf (TyExpr.single I), Annot.stateOf tout⟩
          body st = .error v ∧ v.isValidation = true) ↔
      (st.data.isBaseModel = false ∨
       isinstanceV st.data I = false ∨
       (∃ c, body st = .ret (.nonState c)) ∨
       (∃ r, body st = .ret (.state r) ∧
         (r.data.isBaseModel = false ∨
          isinstanceAny r.data tout.outputs = false)))) ∧
    (∀ v, wrapperCall ⟨Annot.stateOf (TyExpr.single I), Annot.stateOf tout⟩
          body st = .error v → v.isValidation = true →
       (∀ n ∈ v.expectedNames, strInfix n v.msg) ∧
       strInfix v.actualName v.msg) ∧
    (∀ r, wrapperCall ⟨Annot.stateOf (TyExpr.single I), Annot.stateOf tout⟩
          body st = .ok r →
       body st = .ret (.state r) ∧ st.data.isBaseModel = true ∧
       isinstanceV st.data I = true ∧ r.data.isBaseModel = true ∧
       isinstanceAny r.data tout.outputs = true) := by
  refine ⟨?_, fun v _ hval => validation_msg_names_types v hval, ?_⟩
  · by_cases h1 : st.data.isBaseModel = true
    · by_cases h2 : isinstanceV st.data I = true
      · cases hbody : body st with
        | raises e =>
          have heq : wrapperCall ⟨Annot.stateOf (TyExpr.single I),
              Annot.stateOf tout⟩ body st = .error (.fromInner e) := by
            simp [wrapperCall, h1, h2, hbody]
          constructor
          · rintro ⟨v, hv, hval⟩
            rw [heq] at hv
            injection hv with hv
            rw [← hv] at hval
            cases hval
          · rintro (h | h | ⟨c, hc⟩ | ⟨r, hr, _⟩)
            · rw [h1] at h; cases h
            · rw [h2] at h; cases h
            · cases hc
            · cases hr
        | ret r =>
          cases r with
          | nonState c =>
            have heq : wrapperCall ⟨Annot.stateOf (TyExpr.single I),
                Annot.stateOf tout⟩ body st = .error (.notAState c) := by
              simp [wrapperCall, h1, h2, hbody]
            constructor
            · intro _; exact Or.inr (Or.inr (Or.inl ⟨c, rfl⟩))
            · intro _; exact ⟨_, heq, rfl⟩
          | state r =>
            by_cases h3 : r.data.isBaseModel = true
            · by_cases h4 : isinstanceAny r.data tout.outputs = true
              · have heq : wrapperCall ⟨Annot.stateOf (TyExpr.single I),
                    Annot.stateOf tout⟩ body st = .ok r := by
                  simp [wrapperCall, h1, h2, hbody, h3, h4]
                constructor
                · rintro ⟨v, hv, _⟩
                  rw [heq] at hv; cases hv
                · rintro (h | h | ⟨c, hc⟩ | ⟨r', hr', hbad⟩)
                  · rw [h1] at h; cases h
                  · rw [h2] at h; cases h
                  · cases hc
                  · injection hr' with hr'
                    injection hr' with hr'
                    rw [← hr'] at hbad
                    rcases hbad with h | h
                    · rw [h3] at h; cases h
                    · rw [h4] at h; cases h
              · have heq : wrapperCall ⟨Annot.stateOf (TyExpr.single I),
                    Annot.stateOf tout⟩ body st
                    = .error (.outputWrongType (tout.outputs.map PyType.name)
                        r.data.typeName) := by
                  simp [wrapperCall, h1, h2, hbody, h3, h4]
                constructor
                · intro _
                  exact Or.inr (Or.inr (Or.inr
                    ⟨r, rfl, Or.inr (by simpa using h4)⟩))
                · intro _; exact ⟨_, heq, rfl⟩
            · have heq : wrapperCall ⟨Annot.stateOf (TyExpr.single I),
                  Annot.stateOf tout⟩ body st
                  = .error (.outputNotModel r.data.typeName) := by
                simp [wrapperCall, h1, h2, hbody, h3]
              constructor
              · intro _
                exact Or.inr (Or.inr (Or.inr
                  ⟨r, rfl, Or.inl (by simpa using h3)⟩))
              · intro _; exact ⟨_, heq, rfl⟩
      · have heq : wrapperCall ⟨Annot.stateOf (TyExpr.single I),
            Annot.stateOf tout⟩ body st
            = .error (.inputWrongType I.name st.data.typeName) := by
          simp [wrapperCall, h1, h2]
        constructor
        · intro _; exact Or.inr (Or.inl (by simpa using h2))
        · intro _; exact ⟨_, heq, rfl⟩
    · have heq : wrapperCall ⟨Annot.stateOf (TyExpr.single I),
          Annot.stateOf tout⟩ body st
          = .error (.inputNotModel st.data.typeName) := by
        simp [wrapperCall, h1]
      constructor
      · intro _; exact Or.inl (by simpa using h1)
      · intro _; exact ⟨_, heq, rfl⟩
  · intro r hr
    by_cases h1 : st.data.isBaseModel = true
    · by_cases h2 : isinstanceV st.data I = true
      · cases hbody : body st with
        | raises e => simp [wrapperCall, h1, h2, hbody] at hr
        | ret rr =>
          cases rr with
          | nonState c => simp [wrapperCall, h1, h2, hbody] at hr
          | state r' =>
            by_cases h3 : r'.data.isBaseModel = true
            · by_cases h4 : isinstanceAny r'.data tout.outputs = true
              · have heq : wrapperCall ⟨Annot.stateOf (TyExpr.single I),
                    Annot.stateOf tout⟩ body st = .ok r' := by
                  simp [wrapperCall, h1, h2, hbody, h3, h4]
                rw [heq] at hr
                injection hr with hr
                rw [← hr]
                exact ⟨rfl, h1, h2, h3, h4⟩
              · simp [wrapperCall, h1, h2, hbody, h3, h4] at hr
            · simp [wrapperCall, h1, h2, hbody, h3] at hr
      · simp [wrapperCall, h1, h2] at hr
    · simp [wrapperCall, h1] at hr

/-- A concrete payload of runtime type `Analysis`, fed to a capability
declared `State[Query] → State[Analysis]`. -/
def stWrongInputW : StateV :=
  { data := PyVal.model (PyType.root "Analysis") 0, metadata := [], context := [] }

/-- Witness for C6 at a concrete invocation: payload of type `Analysis`
against declared input `Query` yields the input-type validation error, whose
message names both `Query` (expected) and `Analysis` (actual). -/
theorem contract_validation_exactly_witness :
    (∃ v, wrapperCall ⟨Annot.stateOf (TyExpr.single tyQuery),
        Annot.stateOf (TyExpr.single (PyType.root "Analysis"))⟩
        (fun s => InnerOutcome.ret (PyRet.state s)) stWrongInputW
        = .error v ∧ v.isValidation = true) ∧
    ((∀ n ∈ (WrapErr.inputWrongType "Query" "Analysis").expectedNames,
        strInfix n (WrapErr.inputWrongType "Query" "Analysis").msg) ∧
      strInfix (WrapErr.inputWrongType "Query" "Analysis").actualName
        (WrapErr.inputWrongType "Query" "Analysis").msg) := by
  have h := contract_validation_exactly tyQuery
    (TyExpr.single (PyType.root "Analysis"))
    (fun s => InnerOutcome.ret (PyRet.state s)) stWrongInputW
  exact ⟨h.1.mpr (Or.inr (Or.inl (by decide))),
    h.2.1 (WrapErr.inputWrongType "Query" "Analysis") (by rfl) rfl⟩

/-! ## `Skill.ask` (`waspnest/core/skill.py` lines 111–132) -/

/-- A role-tagged chat message. -/
structure Message where
  role : String
  content : String
deriving DecidableEq, Repr

/-- The parameters `Skill.ask` forwards to
`self.agent.client.chat.completions.create`. -/
structure LLMRequest where
  model : String
  messages : List Message
  response_model : PyType
deriving DecidableEq, Repr

/-- The orchestrator as a skill's back-reference sees it: its configured
model identifier and the behaviour of the reasoning client's `create`
call. -/
structure AgentHandle where
  model : String
  create : LLMRequest → PyVal

/-- `Skill.ask`: raises `RuntimeError("Skill must be attached to an agent")`
when `self.agent` is unset; otherwise builds the message list (optional
system prompt first, then the prompt as a user message) and returns the
client's result for the requested response model. -/
def skillAsk (agent : Option AgentHandle) (prompt : String)
    (response_model : PyType) (system_prompt : Option String) :
    Except PyExc PyVal :=
  match agent with
  | none => .error (.runtimeError "Skill must be attached to an agent")
  | some ag =>
    let messages :=
      (match system_prompt with
       | some sp => [Message.mk "system" sp]
       | none => []) ++ [Message.mk "user" prompt]
    .ok (ag.create ⟨ag.model, messages, response_model⟩)

/-- C8: calling the reasoning-service helper while unattached raises the
attachment error to the immediate caller (it is the returned exception, not
swallowed); once attached, the helper forwards the prompt as the final user
message — with the optional system prompt prepended as a system message —
together with the response shape, and returns exactly the client's
result. -/
theorem ask_attachment_and_forwarding (prompt : String) (rm : PyType)
    (ag : AgentHandle) (sp : String) :
    skillAsk none prompt rm (some sp)
        = .error (.runtimeError "Skill must be attached to an agent") ∧
    skillAsk none prompt rm none
        = .error (.runtimeError "Skill must be attached to an agent") ∧
    skillAsk (some ag) prompt rm (some sp)
        = .ok (ag.create ⟨ag.model,
            [Message.mk "system" sp, Message.mk "user" prompt], rm⟩) ∧
    skillAsk (some ag) prompt rm none
        = .ok (ag.create ⟨ag.model, [Message.mk "user" prompt], rm⟩) :=
  ⟨rfl, rfl, rfl, rfl⟩

/-! ## The event bus (`waspnest/hooks.py`)

`Hooks.trigger` iterates the point's callbacks; a raising callback is caught
and re-routed via a recursive `self.trigger(HookPoint.ERROR, exception=e,
hook=hook)` call — with *no* recursion guard.  The Python stack budget is
modelled by explicit fuel: every entry into `trigger` consumes one unit, and
entering with none left raises `RecursionError`, which (being raised by the
recursive call sitting in the `except` block, outside any `try`) propagates
out of the whole `trigger` call chain to the original caller. -/

/-- The fixed set of lifecycle points (`HookPoint`). -/
inductive HookPoint where
  | pre_execute
  | post_execute
  | skill_start
  | skill_end
  | error
  | llm_request
deriving DecidableEq, Repr

/-- The named arguments a trigger passes to its callbacks. -/
inductive Kwargs where
  | state (st : StateV)
  | skillState (skillName : String) (st : StateV)
  | excSkillState (e : PyExc) (skillName : String) (st : StateV)
  | excHook (e : PyExc) (hookId : Nat)
  | excOnly (e : PyExc)
  | llm (tag : Nat)
deriving DecidableEq, Repr

/-- A registered callback: an identity, and its observable behaviour — for
the given arguments, does it raise, and which exception?  (Any other side
effects of a callback are invisible to the engine.) -/
structure Hook where
  id : Nat
  raisesOn : Kwargs → Option PyExc

/-- The bus state: the registered callbacks per point, in registration
order. -/
abbrev HookMap := HookPoint → List Hook

/-- An empty bus (`Hooks.__init__`). -/
def emptyHooks : HookMap := fun _ => []

/-- The observable events of an execution: a trigger being fired for a
point, and an individual callback being invoked with arguments. -/
inductive TraceEntry where
  | fired (p : HookPoint) (args : Kwargs)
  | called (hookId : Nat) (p : HookPoint) (args : Kwargs)
deriving DecidableEq, Repr

/-- Result of one `trigger` call: the trace of events, and whether a
`RecursionError` escaped (aborting the iteration and propagating to the
caller). -/
structure TrigOut where
  trace : List TraceEntry
  aborted : Bool
deriving DecidableEq, Repr

/-- The callback loop of `trigger`, processing the registered list in
order.  `dispatch` is the nested `self.trigger(HookPoint.ERROR, ...)` call
performed in the `except` block for a raising callback; if that nested call
lets a `RecursionError` escape, the loop is aborted and the error
propagates. -/
def runHooks (dispatch : Kwargs → TrigOut) (point : HookPoint) (args : Kwargs) :
    List Hook → TrigOut
  | [] => ⟨[], false⟩
  | h :: rest =>
    match h.raisesOn args with
    | none =>
      let out := runHooks dispatch point args rest
      ⟨.called h.id point args :: out.trace, out.aborted⟩
    | some e =>
      let nested := dispatch (.excHook e h.id)
      if nested.aborted then
        ⟨.called h.id point args :: nested.trace, true⟩
      else
        let out := runHooks dispatch point args rest
        ⟨.called h.id point args :: (nested.trace ++ out.trace), out.aborted⟩

/-- `Hooks.trigger` with an explicit stack budget: entering with zero fuel
raises `RecursionError`; otherwise the point's callbacks run in order, each
raising callback re-dispatching to the `error` point with one level less of
budget. -/
def triggerFuel (hooks : HookMap) : Nat → HookPoint → Kwargs → TrigOut
  | 0, _, _ => ⟨[], true⟩
  | fuel + 1, point, args =>
    let out := runHooks (fun kw => triggerFuel hooks fuel .error kw)
      point args (hooks point)
    ⟨.fired point args :: out.trace, out.aborted⟩

/-- If no registered `error` callback ever raises, the callback loop of a
direct `error` trigger never aborts. -/
theorem runHooks_no_raise (dispatch : Kwargs → TrigOut) (point : HookPoint)
    (args : Kwargs) (l : List Hook)
    (h : ∀ hk ∈ l, hk.raisesOn args = none) :
    (runHooks dispatch point args l).aborted = false := by
  induction l with
  | nil => rfl
  | cons hk rest ih =>
    have hhk : hk.raisesOn args = none := h hk (List.mem_cons_self hk rest)
    have hrest : ∀ hk' ∈ rest, hk'.raisesOn args = none :=
      fun hk' hm => h hk' (List.mem_cons_of_mem hk hm)
    simp [runHooks, hhk, ih hrest]

/-- If the nested dispatch never aborts, the callback loop never aborts. -/
theorem runHooks_dispatch_ok (dispatch : Kwargs → TrigOut) (point : HookPoint)
    (args : Kwargs) (l : List Hook)
    (h : ∀ kw, (dispatch kw).aborted = false) :
    (runHooks dispatch point args l).aborted = false := by
  induction l with
  | nil => rfl
  | cons hk rest ih =>
    cases hr : hk.raisesOn args with
    | none => simp [runHooks, hr, ih]
    | some e => simp [runHooks, hr, h, ih]

/-- Benign error subscribers: no callback registered at the `error` point
raises, whatever arguments it receives. -/
def benignErrorHooks (hooks : HookMap) : Prop :=
  ∀ hk ∈ hooks .error, ∀ kw, hk.raisesOn kw = none

/-- With benign error subscribers, an `error` trigger never aborts (given at
least one stack frame). -/
theorem triggerFuel_error_ok (hooks : HookMap) (hb : benignErrorHooks hooks)
    (fuel : Nat) (args : Kwargs) :
    (triggerFuel hooks (fuel + 1) .error args).aborted = false := by
  show (runHooks _ .error args (hooks .error)).aborted = false
  exact runHooks_no_raise _ _ _ _ (fun hk hm => hb hk hm args)

/-- With benign error subscribers and a stack budget of at least two frames,
no trigger ever aborts: a raising callback's failure is re-routed to the
`error` point, whose callbacks complete without raising. -/
theorem triggerFuel_ok (hooks : HookMap) (hb : benignErrorHooks hooks)
    (fuel : Nat) (point : HookPoint) (args : Kwargs) :
    (triggerFuel hooks (fuel + 2) point args).aborted = false := by
  show (runHooks _ point args (hooks point)).aborted = false
  exact runHooks_dispatch_ok _ _ _ _
    (fun kw => triggerFuel_error_ok hooks hb fuel kw)

/-! ### The missing recursion guard (C1, C7) -/

/-- An `error`-point subscriber that always raises. -/
def alwaysRaisingHook : Hook :=
  { id := 0, raisesOn := fun _ => some (.valueError "error hook boom") }

/-- A `pre_execute` subscriber that always raises. -/
def failingPreHook : Hook :=
  { id := 1, raisesOn := fun _ => some (.valueError "callback boom") }

/-- A benign subscriber (never raises). -/
def benignHook : Hook :=
  { id := 2, raisesOn := fun _ => none }

/-- The bus configuration of the guard counterexamples: a raising
`pre_execute` callback, and an `error` callback that itself always
raises. -/
def guardBugHooks : HookMap := fun p =>
  match p with
  | .error => [alwaysRaisingHook]
  | .pre_execute => [failingPreHook]
  | _ => []

/-- Triggering `error` on a bus whose sole `error` subscriber always raises
aborts with `RecursionError` for *every* stack budget: each re-dispatch
raises again, so the recursion is unbounded. -/
theorem trigger_error_unbounded (fuel : Nat) (args : Kwargs) :
    (triggerFuel guardBugHooks fuel .error args).aborted = true := by
  induction fuel generalizing args with
  | zero => rfl
  | succ fuel ih =>
    show (runHooks _ .error args (guardBugHooks .error)).aborted = true
    simp [guardBugHooks, runHooks, alwaysRaisingHook, ih]

theorem guardBug_pre_aborts (fuel : Nat) (st : StateV) :
    (triggerFuel guardBugHooks fuel .pre_execute (.state st)).aborted = true := by
  cases fuel with
  | zero => rfl
  | succ fuel =>
    show (runHooks _ .pre_execute (.state st)
      (guardBugHooks .pre_execute)).aborted = true
    simp [guardBugHooks, runHooks, failingPreHook,
      trigger_error_unbounded fuel]

/-- C1 (failing behaviour of the code): the source's `Hooks.trigger` has no
guard after the first re-routing — with an `error` subscriber that always
throws, a `pre_execute` trigger whose callback raises re-dispatches to
`error` unboundedly, and the resulting `RecursionError` escapes `trigger`
(and hence `run`) for every stack budget, instead of the second-order
failure being dropped after one re-dispatch. -/
theorem trigger_no_guard_raises_to_caller (fuel : Nat) (st : StateV) :
    (triggerFuel guardBugHooks fuel .error (.excOnly (.valueError "callback boom"))).aborted
        = true ∧
    (triggerFuel guardBugHooks fuel .pre_execute (.state st)).aborted = true :=
  ⟨trigger_error_unbounded fuel _, guardBug_pre_aborts fuel st⟩

/-- The bus configuration of the C7 counterexample: two `error`
subscribers — the first always raises, the second is benign. -/
def isolationBugHooks : HookMap := fun p =>
  match p with
  | .error => [alwaysRaisingHook, benignHook]
  | _ => []

theorem iso_trigger_unbounded_and_skips_benign (fuel : Nat) (args : Kwargs) :
    (triggerFuel isolationBugHooks fuel .error args).aborted = true ∧
    (∀ p a, TraceEntry.called benignHook.id p a ∉
      (triggerFuel isolationBugHooks fuel .error args).trace) := by
  induction fuel generalizing args with
  | zero => exact ⟨rfl, by intro p a h; cases h⟩
  | succ fuel ih =>
    have hnested := ih (.excHook (.valueError "error hook boom")
      alwaysRaisingHook.id)
    have hstep : triggerFuel isolationBugHooks (fuel + 1) .error args
        = ⟨.fired .error args ::
            .called alwaysRaisingHook.id .error args ::
            (triggerFuel isolationBugHooks fuel .error
              (.excHook (.valueError "error hook boom")
                alwaysRaisingHook.id)).trace,
           true⟩ := by
      show (⟨.fired .error args ::
        (runHooks _ .error args (isolationBugHooks .error)).trace,
        (runHooks _ .error args (isolationBugHooks .error)).aborted⟩ : TrigOut) = _
      rw [show isolationBugHooks .error = [alwaysRaisingHook, benignHook] from rfl]
      rw [show runHooks (fun kw => triggerFuel isolationBugHooks fuel .error kw)
          .error args [alwaysRaisingHook, benignHook]
          = ⟨.called alwaysRaisingHook.id .error args ::
              (triggerFuel isolationBugHooks fuel .error
                (.excHook (.valueError "error hook boom")
                  alwaysRaisingHook.id)).trace, true⟩ from by
        have h1 : (triggerFuel isolationBugHooks fuel .error
            (.excHook (.valueError "error hook boom") 0)).aborted = true :=
          hnested.1
        unfold runHooks
        simp [alwaysRaisingHook, h1]]
    constructor
    · rw [hstep]
    · intro p a hmem
      rw [hstep] at hmem
      simp only [List.mem_cons] at hmem
      rcases hmem with h | h | h
      · cases h
      · cases h
      · exact hnested.2 p a h

/-- Counterexample behaviour for C7: with `error` subscribers
`[raising, benign]`, triggering `error` lets the unguarded re-dispatch
recursion escape as `RecursionError` (for every stack budget), so the
second (benign) callback is never invoked — although the claim promises
that a raising callback never prevents the remaining callbacks of the same
event from executing. -/
theorem trigger_raising_callback_blocks_rest (fuel : Nat) (e : PyExc) :
    (triggerFuel isolationBugHooks fuel .error (.excOnly e)).aborted = true ∧
    (∀ p a, TraceEntry.called benignHook.id p a ∉
      (triggerFuel isolationBugHooks fuel .error (.excOnly e)).trace) :=
  iso_trigger_unbounded_and_skips_benign fuel (.excOnly e)

/-! ## The dispatch loop (`waspnest/core/agent.py`, `Agent.execute`)

The loop is embedded with: explicit trigger fuel (the stack budget available
to each top-level `trigger` call — after an exception unwinds, the budget is
back at full, so every trigger from `execute` starts with the same fuel); a
timestamp counter for the `datetime.now()` calls; and an event trace.
`RecursionError` escaping a trigger *inside* the `try` block is caught by the
`except Exception` clause like any other exception; escaping the `error`
trigger of the `except` block, or the `pre_execute`/`post_execute` triggers,
it propagates out of `execute` itself. -/

/-- Result of scanning the skill list once (the inner `for` loop):
trace, advanced timestamp counter, and either the propagating
`RecursionError` or the current state paired with the `executed` flag. -/
structure ScanOut where
  trace : List TraceEntry
  clock : Nat
  res : Except PyExc (StateV × Bool)
deriving Repr

/-- The `except Exception` branch of the loop body: stamp
`error`/`error_skill`/`error_step` into the context, fire the `error`
trigger (whose own `RecursionError` would propagate), then continue the
scan (`continue`) on the remaining skills via `k`. -/
def handleErr (hooks : HookMap) (fuel steps : Nat) (st : StateV) (clock : Nat)
    (e : PyExc) (skName : String) (pre : List TraceEntry)
    (k : StateV → Nat → ScanOut) : ScanOut :=
  let stE := st.with_context [("error", .vstr e.toStr),
    ("error_skill", .vstr skName), ("error_step", .vnat steps)]
  let tE := triggerFuel hooks fuel .error (.excSkillState e skName stE)
  if tE.aborted then
    ⟨pre ++ tE.trace, clock, .error .recursionError⟩
  else
    let out := k stE clock
    ⟨pre ++ tE.trace ++ out.trace, out.clock, out.res⟩

/-- One scan over the skills (the `for skill in self.skills` loop) at step
number `steps`, starting from the current state: try each skill that
`can_handle` the state; stamp the pre-execution context and fire
`skill_start`; run `execute`; on a state result, stamp the completion
context, fire `skill_end` and stop the scan with `executed = True`; on
`None`, keep scanning; on an exception, record it and keep scanning. -/
def scanSkills (hooks : HookMap) (fuel steps : Nat) :
    List SkillM → StateV → Nat → ScanOut
  | [], st, clock => ⟨[], clock, .ok (st, false)⟩
  | sk :: rest, st, clock =>
    if sk.can_handle st then
      let st1 := st.with_context [("current_step", .vnat steps),
        ("current_skill", .vstr sk.name), ("skill_started_at", .vtime clock)]
      let clock1 := clock + 1
      let t1 := triggerFuel hooks fuel .skill_start (.skillState sk.name st1)
      if t1.aborted then
        handleErr hooks fuel steps st1 clock1 .recursionError sk.name t1.trace
          (fun s c => scanSkills hooks fuel steps rest s c)
      else
        match sk.exec st1 with
        | .retNone =>
          let out := scanSkills hooks fuel steps rest st1 clock1
          ⟨t1.trace ++ out.trace, out.clock, out.res⟩
        | .retState new =>
          let st2 := new.with_context [("last_skill", .vstr sk.name),
            ("last_step", .vnat steps), ("skill_completed_at", .vtime clock1)]
          let clock2 := clock1 + 1
          let t2 := triggerFuel hooks fuel .skill_end (.skillState sk.name st2)
          if t2.aborted then
            handleErr hooks fuel steps st2 clock2 .recursionError sk.name
              (t1.trace ++ t2.trace)
              (fun s c => scanSkills hooks fuel steps rest s c)
          else
            ⟨t1.trace ++ t2.trace, clock2, .ok (st2, true)⟩
        | .raises e =>
          handleErr hooks fuel steps st1 clock1 e sk.name t1.trace
            (fun s c => scanSkills hooks fuel steps rest s c)
    else
      scanSkills hooks fuel steps rest st clock

/-- Result of the `while` loop: trace, timestamp counter, number of
completed steps, and either a propagating `RecursionError` or the final
state. -/
structure LoopOut where
  trace : List TraceEntry
  clock : Nat
  steps : Nat
  res : Except PyExc StateV
deriving Repr

/-- The `while steps < max_steps` loop, with `budget` the remaining
iterations: scan the skills; if no skill executed, stop; otherwise count the
step and continue from the scan's state. -/
def dispatchLoop (hooks : HookMap) (fuel : Nat) (skills : List SkillM) :
    Nat → Nat → Nat → StateV → LoopOut
  | 0, steps, clock, st => ⟨[], clock, steps, .ok st⟩
  | budget + 1, steps, clock, st =>
    let out := scanSkills hooks fuel steps skills st clock
    match out.res with
    | .error e => ⟨out.trace, out.clock, steps, .error e⟩
    | .ok (st', executed) =>
      if executed then
        let l := dispatchLoop hooks fuel skills budget (steps + 1) out.clock st'
        ⟨out.trace ++ l.trace, l.clock, l.steps, l.res⟩
      else
        ⟨out.trace, out.clock, steps, .ok st'⟩

/-- Result of `Agent.execute`: trace, final timestamp counter, and either a
propagating `RecursionError` or the returned final state. -/
structure RunOut where
  trace : List TraceEntry
  clock : Nat
  res : Except PyExc StateV
deriving Repr

/-- `Agent.execute(initial_state, max_steps, context)`: merge the caller's
context (`if context:` — skipped when empty), stamp
`execution_started_at`/`max_steps`, fire `pre_execute` with the *original*
initial state, run the dispatch loop, then stamp
`execution_completed_at`/`total_steps`, fire `post_execute` and return the
final state.  A `RecursionError` escaping the unguarded `pre_execute`,
`error` or `post_execute` trigger chains propagates out of `execute`. -/
def execute (hooks : HookMap) (fuel : Nat) (skills : List SkillM)
    (initial_state : StateV) (max_steps : Nat) (context : Dict)
    (clock : Nat) : RunOut :=
  let cur0 := if context.isEmpty then initial_state
    else initial_state.with_context context
  let cur := cur0.with_context [("execution_started_at", .vtime clock),
    ("max_steps", .vnat max_steps)]
  let clock1 := clock + 1
  let tPre := triggerFuel hooks fuel .pre_execute (.state initial_state)
  if tPre.aborted then
    ⟨tPre.trace, clock1, .error .recursionError⟩
  else
    let l := dispatchLoop hooks fuel skills max_steps 0 clock1 cur
    match l.res with
    | .error e => ⟨tPre.trace ++ l.trace, l.clock, .error e⟩
    | .ok st =>
      let fin := st.with_context [("execution_completed_at", .vtime l.clock),
        ("total_steps", .vnat l.steps)]
      let tPost := triggerFuel hooks fuel .post_execute (.state fin)
      if tPost.aborted then
        ⟨tPre.trace ++ l.trace ++ tPost.trace, l.clock + 1, .error .recursionError⟩
      else
        ⟨tPre.trace ++ l.trace ++ tPost.trace, l.clock + 1, .ok fin⟩

/-- The default step budget of `Agent.execute`. -/
def defaultMaxSteps : Nat := 10

/-! ### Helper lemmas for runs without (or with benign) subscribers -/

/-- Is this trace entry the firing of the after-step (`skill_end`) event? -/
def isFiredSkillEnd : TraceEntry → Bool
  | .fired .skill_end _ => true
  | _ => false

/-- Is this trace entry the firing of the `error` event? -/
def isFiredError : TraceEntry → Bool
  | .fired .error _ => true
  | _ => false

/-- On an empty bus, a trigger with at least one stack frame records its
firing and completes. -/
theorem triggerFuel_empty (f : Nat) (p : HookPoint) (a : Kwargs) :
    triggerFuel emptyHooks (f + 1) p a = ⟨[.fired p a], false⟩ := rfl

/-- On an empty bus a scan always completes (`.ok`), and its trace contains
the after-step firing exactly once if some skill executed and not at all
otherwise: at most one capability executes per scan. -/
theorem scanSkills_empty (fuel steps : Nat) (skills : List SkillM)
    (st : StateV) (clock : Nat) :
    ∃ st2 ex, (scanSkills emptyHooks (fuel + 1) steps skills st clock).res
        = .ok (st2, ex) ∧
      (scanSkills emptyHooks (fuel + 1) steps skills st clock).trace.countP
          isFiredSkillEnd = (if ex then 1 else 0) := by
  induction skills generalizing st clock with
  | nil => exact ⟨st, false, rfl, rfl⟩
  | cons sk rest ih =>
    by_cases hc : sk.can_handle st = true
    · cases hex : sk.exec (st.with_context [("current_step", .vnat steps),
        ("current_skill", .vstr sk.name), ("skill_started_at", .vtime clock)]) with
      | retNone =>
        obtain ⟨st2, ex, hres, hcount⟩ := ih
          (st.with_context [("current_step", .vnat steps),
            ("current_skill", .vstr sk.name),
            ("skill_started_at", .vtime clock)]) (clock + 1)
        refine ⟨st2, ex, ?_, ?_⟩
        · simp [scanSkills, hc, triggerFuel_empty, hex, hres]
        · simp [scanSkills, hc, triggerFuel_empty, hex,
            List.countP_cons, isFiredSkillEnd, hcount]
      | retState new =>
        refine ⟨new.with_context [("last_skill", .vstr sk.name),
          ("last_step", .vnat steps), ("skill_completed_at", .vtime (clock + 1))],
          true, ?_, ?_⟩
        · simp [scanSkills, hc, triggerFuel_empty, hex]
        · simp [scanSkills, hc, triggerFuel_empty, hex,
            List.countP_cons, isFiredSkillEnd]
      | raises e =>
        obtain ⟨st2, ex, hres, hcount⟩ := ih
          ((st.with_context [("current_step", .vnat steps),
            ("current_skill", .vstr sk.name),
            ("skill_started_at", .vtime clock)]).with_context
            [("error", .vstr e.toStr), ("error_skill", .vstr sk.name),
              ("error_step", .vnat steps)]) (clock + 1)
        refine ⟨st2, ex, ?_, ?_⟩
        · simp [scanSkills, hc, triggerFuel_empty, hex, handleErr, hres]
        · simp [scanSkills, hc, triggerFuel_empty, hex, handleErr,
            List.countP_cons, List.countP_append, isFiredSkillEnd, hcount]
    · obtain ⟨st2, ex, hres, hcount⟩ := ih st clock
      exact ⟨st2, ex, by simp [scanSkills, hc, hres],
        by simp [scanSkills, hc, hcount]⟩

/-- On an empty bus the dispatch loop always completes, and the completed
step count grows by exactly the number of after-step firings in its trace:
the step count increments only on a successful transform. -/
theorem dispatchLoop_empty (fuel : Nat) (skills : List SkillM)
    (budget steps clock : Nat) (st : StateV) :
    ∃ stF, (dispatchLoop emptyHooks (fuel + 1) skills budget steps clock st).res
        = .ok stF ∧
      (dispatchLoop emptyHooks (fuel + 1) skills budget steps clock st).steps
        = steps + (dispatchLoop emptyHooks (fuel + 1) skills budget steps
            clock st).trace.countP isFiredSkillEnd := by
  induction budget generalizing steps clock st with
  | zero => exact ⟨st, rfl, rfl⟩
  | succ budget ih =>
    obtain ⟨st2, ex, hres, hcount⟩ := scanSkills_empty fuel steps skills st clock
    cases hscan : scanSkills emptyHooks (fuel + 1) steps skills st clock with
    | mk tr c r =>
      rw [hscan] at hres hcount
      simp only at hres hcount
      subst hres
      cases ex with
      | true =>
        obtain ⟨stF, hres2, hsteps2⟩ := ih (steps + 1) c st2
        refine ⟨stF, ?_, ?_⟩
        · simp [dispatchLoop, hscan, hres2]
        · simp [dispatchLoop, hscan, List.countP_append, hcount, hsteps2]
          omega
      | false =>
        refine ⟨st2, ?_, ?_⟩
        · simp [dispatchLoop, hscan]
        · simp [dispatchLoop, hscan, hcount]

/-! ### The typed two-skill chain (C4)

The repository's test fixtures register an analyzer (`Query → Analysis`)
and a responder (`Analysis → Final`), each passing `context` and `metadata`
through (`State(data=result, context=state.context, metadata=state.metadata)`),
and run the agent with no extra context argument and no subscribers. -/

@[simp] theorem with_context_data (s : StateV) (u : Dict) :
    (s.with_context u).data = s.data := rfl

@[simp] theorem with_context_metadata (s : StateV) (u : Dict) :
    (s.with_context u).metadata = s.metadata := rfl

@[simp] theorem with_context_context (s : StateV) (u : Dict) :
    (s.with_context u).context = dupdate s.context u := rfl

@[simp] theorem dupdate_nil (a : Dict) : dupdate a [] = a := rfl

@[simp] theorem dupdate_cons (a : Dict) (p : String × Value) (b : Dict) :
    dupdate a (p :: b) = dupdate (dset a p.1 p.2) b := rfl

theorem dget_dset_isSome (d : Dict) (k k' : String) (v : Value)
    (h : (dget d k).isSome) : (dget (dset d k' v) k).isSome := by
  rw [dget_dset]
  by_cases he : k' = k <;> simp [he, h]

/-- The intermediate payload class of the chain scenario. -/
def tyAnalysis : PyType := PyType.root "Analysis"

/-- The final payload class of the chain scenario. -/
def tyFinal : PyType := PyType.root "Final"

/-- A skill whose `execute` is the `@skill`-decorated `body` (as the example
skills are written): the decorated wrapper returns the checked state, or
raises the rendered contract `TypeError`. -/
def skillFromContract (name : String) (I : PyType) (tout : TyExpr)
    (body : StateV → InnerOutcome) : SkillM :=
  { name := name, input_type := some I,
    exec := fun st =>
      match wrapperCall ⟨.stateOf (.single I), .stateOf tout⟩ body st with
      | .ok r => .retState r
      | .error v => .raises v.render }

/-- The analyzer capability `Query → Analysis`, carrying context and
metadata through unchanged (as the repository's `AnalyzerSkill` does). -/
def skillA : SkillM := skillFromContract "AnalyzerSkill" tyQuery
  (.single tyAnalysis)
  (fun st => .ret (.state ⟨PyVal.model tyAnalysis 1, st.metadata, st.context⟩))

/-- The responder capability `Analysis → Final`, carrying context and
metadata through unchanged (as the repository's `ResponderSkill` does). -/
def skillB : SkillM := skillFromContract "ResponderSkill" tyAnalysis
  (.single tyFinal)
  (fun st => .ret (.state ⟨PyVal.model tyFinal 2, st.metadata, st.context⟩))

theorem withContext_nil (s : StateV) : s.with_context [] = s := rfl

/-- On an empty bus every run completes, and the stamped `total_steps`
equals the number of after-step (`skill_end`) firings in the run's trace:
the step count increments exactly on successful transforms. -/
theorem execute_empty_total_steps (fuel : Nat) (skills : List SkillM)
    (st : StateV) (ms : Nat) (extra : Dict) (clock : Nat) :
    ∃ fin, (execute emptyHooks (fuel + 1) skills st ms extra clock).res
        = .ok fin ∧
      dget fin.context "total_steps" = some (.vnat
        ((execute emptyHooks (fuel + 1) skills st ms extra clock).trace.countP
          isFiredSkillEnd)) := by
  obtain ⟨stF, hres, hsteps⟩ := dispatchLoop_empty fuel skills ms 0 (clock + 1)
      ((if extra.isEmpty then st else st.with_context extra).with_context
        [("execution_started_at", .vtime clock), ("max_steps", .vnat ms)])
  cases hd : dispatchLoop emptyHooks (fuel + 1) skills ms 0 (clock + 1)
      ((if extra.isEmpty then st else st.with_context extra).with_context
        [("execution_started_at", .vtime clock), ("max_steps", .vnat ms)]) with
  | mk tr c s r =>
    rw [hd] at hres hsteps
    simp only at hres hsteps
    simp only [List.isEmpty_eq_true] at hd
    subst hres
    refine ⟨stF.with_context [("execution_completed_at", .vtime c),
      ("total_steps", .vnat s)], ?_, ?_⟩
    · simp [execute, triggerFuel_empty, hd]
    · simp [execute, triggerFuel_empty, hd, dget_dset, hsteps,
        List.countP_cons, List.countP_append, isFiredSkillEnd]

/-- C4: with `[analyzer: Query → Analysis, responder: Analysis → Final]`
registered in that order (both succeeding) and a Query payload: the run at
the default step limit yields a Final payload, `total_steps = 2`, unchanged
metadata, and every caller-supplied context key still present; the run at
step limit 1 yields an Analysis payload with `total_steps = 1`; at most one
capability executes per scan (the after-step event fires at most once); and
in general (empty bus) `total_steps` equals the number of successful
transforms. -/
theorem chain_run_steps_and_context (ctx0 md : Dict) (tag fuel clock : Nat) :
    (∃ fin, (execute emptyHooks (fuel + 1) [skillA, skillB]
        ⟨PyVal.model tyQuery tag, md, ctx0⟩ defaultMaxSteps [] clock).res
          = .ok fin ∧
      payloadTy fin.data = some tyFinal ∧
      dget fin.context "total_steps" = some (.vnat 2) ∧
      fin.metadata = md ∧
      (∀ k, (dget ctx0 k).isSome → (dget fin.context k).isSome)) ∧
    (∃ fin1, (execute emptyHooks (fuel + 1) [skillA, skillB]
        ⟨PyVal.model tyQuery tag, md, ctx0⟩ 1 [] clock).res = .ok fin1 ∧
      payloadTy fin1.data = some tyAnalysis ∧
      dget fin1.context "total_steps" = some (.vnat 1)) ∧
    (∀ skills st c steps,
      (scanSkills emptyHooks (fuel + 1) steps skills st c).trace.countP
        isFiredSkillEnd ≤ 1) ∧
    (∀ skills st ms extra c,
      ∃ fin2, (execute emptyHooks (fuel + 1) skills st ms extra c).res
          = .ok fin2 ∧
        dget fin2.context "total_steps" = some (.vnat
          ((execute emptyHooks (fuel + 1) skills st ms extra c).trace.countP
            isFiredSkillEnd))) := by
  refine ⟨?_, ?_, ?_, fun skills st ms extra c =>
    execute_empty_total_steps fuel skills st ms extra c⟩
  · refine ⟨_, by
      simp [execute, triggerFuel_empty, defaultMaxSteps, dispatchLoop,
        scanSkills, skillA, skillB, skillFromContract, wrapperCall,
        SkillM.can_handle, isinstanceV, isinstanceTy, PyType.ancestors, tyQuery,
        tyAnalysis, tyFinal, PyVal.isBaseModel, isinstanceAny, TyExpr.outputs]
      rfl, ?_, ?_, ?_, ?_⟩
    · simp [payloadTy, tyFinal]
    · simp [dget_dset]
    · rfl
    · intro k h
      simp only [with_context_context, dupdate_nil, dupdate_cons]
      repeat (first | exact h | apply dget_dset_isSome)
  · refine ⟨_, by
      simp [execute, triggerFuel_empty, dispatchLoop,
        scanSkills, skillA, skillB, skillFromContract, wrapperCall,
        SkillM.can_handle, isinstanceV, isinstanceTy, PyType.ancestors, tyQuery,
        tyAnalysis, tyFinal, PyVal.isBaseModel, isinstanceAny, TyExpr.outputs]
      rfl, ?_, ?_⟩
    · simp [payloadTy, tyAnalysis]
    · simp [dget_dset]
  · intro skills st c steps
    obtain ⟨st2, ex, _, hcount⟩ := scanSkills_empty fuel steps skills st c
    rw [hcount]
    cases ex <;> simp

/-- Witness for C4 at a concrete caller context: the run returns a Final
payload, `total_steps = 2`, and the caller's `user_id` key survives. -/
theorem chain_run_steps_and_context_witness :
    ∃ fin, (execute emptyHooks 1 [skillA, skillB]
        ⟨PyVal.model tyQuery 0, [], [("user_id", Value.vstr "123")]⟩
        defaultMaxSteps [] 0).res = .ok fin ∧
      payloadTy fin.data = some tyFinal ∧
      dget fin.context "total_steps" = some (.vnat 2) ∧
      (dget fin.context "user_id").isSome := by
  obtain ⟨fin, h1, h2, h3, _, h5⟩ :=
    (chain_run_steps_and_context [("user_id", Value.vstr "123")] [] 0 0 0).1
  exact ⟨fin, h1, h2, h3, h5 "user_id" (by decide)⟩

/-! ### Transforms returning `None` (C10) -/

/-- Is this trace entry the firing of the before-step (`skill_start`)
event? -/
def isFiredSkillStart : TraceEntry → Bool
  | .fired .skill_start _ => true
  | _ => false

/-- If every skill's `execute` returns `None` on every state, a scan
completes with `executed = False`, leaves the payload untouched, and fires
only before-step events (in particular neither after-step nor error
events). -/
theorem scanSkills_all_none (fuel steps : Nat) (skills : List SkillM)
    (st : StateV) (clock : Nat)
    (hall : ∀ s ∈ skills, ∀ x, s.exec x = .retNone) :
    ∃ st2, (scanSkills emptyHooks (fuel + 1) steps skills st clock).res
        = .ok (st2, false) ∧
      st2.data = st.data ∧
      (∀ e ∈ (scanSkills emptyHooks (fuel + 1) steps skills st clock).trace,
        isFiredSkillStart e = true) := by
  induction skills generalizing st clock with
  | nil => exact ⟨st, rfl, rfl, by intro e he; cases he⟩
  | cons s rest ih =>
    have hs := hall s (List.mem_cons_self s rest)
    have hrest : ∀ s' ∈ rest, ∀ x, s'.exec x = .retNone :=
      fun s' hm => hall s' (List.mem_cons_of_mem s hm)
    by_cases hc : s.can_handle st = true
    · obtain ⟨st2, hres, hdata, htr⟩ := ih
        (st.with_context [("current_step", .vnat steps),
          ("current_skill", .vstr s.name),
          ("skill_started_at", .vtime clock)]) (clock + 1) hrest
      refine ⟨st2, ?_, ?_, ?_⟩
      · simp [scanSkills, hc, triggerFuel_empty, hs, hres]
      · rw [hdata]; rfl
      · intro e he
        simp [scanSkills, hc, triggerFuel_empty, hs] at he
        rcases he with rfl | he
        · rfl
        · exact htr e he
    · obtain ⟨st2, hres, hdata, htr⟩ := ih st clock hrest
      refine ⟨st2, ?_, hdata, ?_⟩
      · simp [scanSkills, hc, hres]
      · intro e he
        simp only [scanSkills, hc, if_false] at he
        exact htr e he

/-- C10: a `None` result from a selected skill is silently skipped.  Part
one: the scan at such a skill reduces to the scan of the remaining skills of
the same step, the state carrying only the three pre-execution stamps — the
transform's result is not adopted, no error fields are recorded, and the
only event fired for that skill is before-step.  Part two: when every
applicable skill returns `None`, the run terminates with `total_steps = 0`,
the original payload, and no after-step or error event ever fired — exactly
as if no capability had matched. -/
theorem none_result_silent_skip (fuel : Nat) :
    (∀ (steps : Nat) (sk : SkillM) (rest : List SkillM) (st : StateV)
        (clock : Nat),
      sk.can_handle st = true →
      sk.exec (st.with_context [("current_step", .vnat steps),
        ("current_skill", .vstr sk.name),
        ("skill_started_at", .vtime clock)]) = .retNone →
      (scanSkills emptyHooks (fuel + 1) steps (sk :: rest) st clock
        = ⟨.fired .skill_start (.skillState sk.name
              (st.with_context [("current_step", .vnat steps),
                ("current_skill", .vstr sk.name),
                ("skill_started_at", .vtime clock)])) ::
            (scanSkills emptyHooks (fuel + 1) steps rest
              (st.with_context [("current_step", .vnat steps),
                ("current_skill", .vstr sk.name),
                ("skill_started_at", .vtime clock)]) (clock + 1)).trace,
          (scanSkills emptyHooks (fuel + 1) steps rest
            (st.with_context [("current_step", .vnat steps),
              ("current_skill", .vstr sk.name),
              ("skill_started_at", .vtime clock)]) (clock + 1)).clock,
          (scanSkills emptyHooks (fuel + 1) steps rest
            (st.with_context [("current_step", .vnat steps),
              ("current_skill", .vstr sk.name),
              ("skill_started_at", .vtime clock)]) (clock + 1)).res⟩) ∧
      (st.with_context [("current_step", .vnat steps),
        ("current_skill", .vstr sk.name),
        ("skill_started_at", .vtime clock)]).data = st.data ∧
      (∀ k, k = "error" ∨ k = "error_skill" ∨ k = "error_step" →
        dget (st.with_context [("current_step", .vnat steps),
          ("current_skill", .vstr sk.name),
          ("skill_started_at", .vtime clock)]).context k = dget st.context k)) ∧
    (∀ (skills : List SkillM) (st0 : StateV) (ms : Nat) (extra : Dict)
        (c0 : Nat),
      (∀ s ∈ skills, ∀ x, s.exec x = .retNone) →
      ∃ fin, (execute emptyHooks (fuel + 1) skills st0 ms extra c0).res
          = .ok fin ∧
        dget fin.context "total_steps" = some (.vnat 0) ∧
        fin.data = st0.data ∧
        (∀ a, TraceEntry.fired .skill_end a ∉
          (execute emptyHooks (fuel + 1) skills st0 ms extra c0).trace) ∧
        (∀ a, TraceEntry.fired .error a ∉
          (execute emptyHooks (fuel + 1) skills st0 ms extra c0).trace)) := by
  constructor
  · intro steps sk rest st clock hc hnone
    refine ⟨?_, rfl, ?_⟩
    · simp [scanSkills, hc, triggerFuel_empty, hnone]
    · rintro k (rfl | rfl | rfl) <;> simp [dget_dset]
  · intro skills st0 ms extra c0 hall
    have hcur : ∀ d : Dict,
        ((if extra.isEmpty then st0 else st0.with_context extra).with_context
          d).data = st0.data := by
      intro d
      by_cases he : extra.isEmpty <;> simp [he]
    cases ms with
    | zero =>
      refine ⟨((if extra.isEmpty then st0 else st0.with_context
          extra).with_context [("execution_started_at", .vtime c0),
          ("max_steps", .vnat 0)]).with_context
          [("execution_completed_at", .vtime (c0 + 1)),
            ("total_steps", .vnat 0)], ?_, ?_, ?_, ?_, ?_⟩
      · simp [execute, triggerFuel_empty, dispatchLoop]
      · simp [dget_dset]
      · rw [with_context_data]; exact hcur _
      · intro a hmem
        simp [execute, triggerFuel_empty, dispatchLoop] at hmem
      · intro a hmem
        simp [execute, triggerFuel_empty, dispatchLoop] at hmem
    | succ ms =>
      obtain ⟨st2, hres, hdata, htr⟩ := scanSkills_all_none fuel 0 skills
        ((if extra.isEmpty then st0 else st0.with_context extra).with_context
          [("execution_started_at", .vtime c0), ("max_steps", .vnat (ms + 1))])
        (c0 + 1) hall
      cases hscan : scanSkills emptyHooks (fuel + 1) 0 skills
        ((if extra.isEmpty then st0 else st0.with_context extra).with_context
          [("execution_started_at", .vtime c0), ("max_steps", .vnat (ms + 1))])
        (c0 + 1) with
      | mk tr c r =>
        rw [hscan] at hres htr
        simp only at hres htr
        subst hres
        simp only [List.isEmpty_eq_true] at hscan
        refine ⟨st2.with_context [("execution_completed_at", .vtime c),
          ("total_steps", .vnat 0)], ?_, ?_, ?_, ?_, ?_⟩
        · simp [execute, triggerFuel_empty, dispatchLoop, hscan]
        · simp [dget_dset]
        · rw [show (st2.with_context [("execution_completed_at", .vtime c),
            ("total_steps", .vnat 0)]).data = st2.data from rfl, hdata]
          exact hcur _
        · intro a hmem
          simp [execute, triggerFuel_empty, dispatchLoop, hscan] at hmem
          have := htr _ hmem
          simp [isFiredSkillStart] at this
        · intro a hmem
          simp [execute, triggerFuel_empty, dispatchLoop, hscan] at hmem
          have := htr _ hmem
          simp [isFiredSkillStart] at this

/-- An (undecorated) skill whose `execute` always returns `None`. -/
def noneSkill : SkillM :=
  { name := "NoneSkill", input_type := none, exec := fun _ => .retNone }

/-- Witness for C10 at a concrete run: one always-`None` skill, ten-step
budget — the run completes with `total_steps = 0` and the original
payload. -/
theorem none_result_silent_skip_witness :
    ∃ fin, (execute emptyHooks 1 [noneSkill]
        ⟨PyVal.model tyQuery 0, [], []⟩ 10 [] 0).res = .ok fin ∧
      dget fin.context "total_steps" = some (.vnat 0) ∧
      fin.data = PyVal.model tyQuery 0 := by
  obtain ⟨fin, h1, h2, h3, -, -⟩ := (none_result_silent_skip 0).2 [noneSkill]
    ⟨PyVal.model tyQuery 0, [], []⟩ 10 [] 0 (by
      intro s hs x
      simp at hs
      subst hs
      rfl)
  exact ⟨fin, h1, h2, h3⟩

/-! ### Error recovery inside the dispatch loop (C3) -/

theorem dget_dupdate_not_mem (c u : Dict) (k : String) (h : k ∉ dkeys u) :
    dget (dupdate c u) k = dget c k := by
  induction u generalizing c with
  | nil => rfl
  | cons p u ih =>
    have hp : p.1 ≠ k := fun he => h (by simp [dkeys, he])
    have hu : k ∉ dkeys u := fun hm => h (by simp [dkeys] at hm ⊢; exact Or.inr hm)
    rw [dupdate_cons, ih _ hu, dget_dset, if_neg hp]

/-- Is this trace entry the dispatch loop's own `error` firing (the
`trigger(ERROR, exception=…, skill=…, state=…)` of the `except` branch)?
Re-dispatches from inside `Hooks.trigger` carry `exception=…, hook=…`
arguments instead and are excluded. -/
def isAgentErrorEvent : TraceEntry → Bool
  | .fired .error (.excSkillState _ _ _) => true
  | _ => false

theorem runHooks_fired_shape (dispatch : Kwargs → TrigOut) (point : HookPoint)
    (args : Kwargs) (l : List Hook)
    (hd : ∀ ex i q b, TraceEntry.fired q b ∈ (dispatch (.excHook ex i)).trace →
      q = .error ∧ ∃ ex2 i2, b = Kwargs.excHook ex2 i2) :
    ∀ q b, TraceEntry.fired q b ∈ (runHooks dispatch point args l).trace →
      q = .error ∧ ∃ ex2 i2, b = Kwargs.excHook ex2 i2 := by
  induction l with
  | nil => intro q b hb; cases hb
  | cons hk rest ih =>
    intro q b hb
    cases hr : hk.raisesOn args with
    | none =>
      simp only [runHooks, hr, List.mem_cons, reduceCtorEq, false_or] at hb
      exact ih q b hb
    | some e =>
      by_cases ha : (dispatch (.excHook e hk.id)).aborted
      · simp only [runHooks, hr, ha, if_true, List.mem_cons, reduceCtorEq,
          false_or] at hb
        exact hd e hk.id q b hb
      · simp only [runHooks, hr, ha, if_false, List.mem_cons,
          List.mem_append, reduceCtorEq, false_or] at hb
        rcases hb with hb | hb
        · exact hd e hk.id q b hb
        · exact ih q b hb

/-- Every `fired` entry in a trigger's trace is either the trigger's own
firing or an `error` re-dispatch carrying `exception=…, hook=…`
arguments. -/
theorem triggerFuel_fired_shape (hooks : HookMap) (f : Nat) (p : HookPoint)
    (a : Kwargs) :
    ∀ q b, TraceEntry.fired q b ∈ (triggerFuel hooks f p a).trace →
      (q = p ∧ b = a) ∨ (q = .error ∧ ∃ ex i, b = Kwargs.excHook ex i) := by
  induction f generalizing p a with
  | zero => intro q b hb; cases hb
  | succ f ih =>
    intro q b hb
    simp only [triggerFuel, List.mem_cons] at hb
    rcases hb with hb | hb
    · cases hb
      exact Or.inl ⟨rfl, rfl⟩
    · refine Or.inr (runHooks_fired_shape _ p a (hooks p) ?_ q b hb)
      intro ex i q' b' hb'
      rcases ih .error (.excHook ex i) q' b' hb' with ⟨hq, hba⟩ | ⟨hq, hba⟩
      · exact ⟨hq, ex, i, hba⟩
      · exact ⟨hq, hba⟩

/-- A trigger at a point other than `error` contributes no dispatch-loop
error events to the trace. -/
theorem triggerFuel_no_agent_error (hooks : HookMap) (f : Nat) (p : HookPoint)
    (a : Kwargs) (hp : p ≠ .error) :
    ∀ t ∈ (triggerFuel hooks f p a).trace, isAgentErrorEvent t = false := by
  intro t ht
  cases t with
  | called i q b => rfl
  | fired q b =>
    rcases triggerFuel_fired_shape hooks f p a q b ht with ⟨hq, hb⟩ | ⟨hq, ex, i, hb⟩
    · rw [hq, hb]
      cases p with
      | error => exact absurd rfl hp
      | pre_execute => rfl
      | post_execute => rfl
      | skill_start => rfl
      | skill_end => rfl
      | llm_request => rfl
    · rw [hq, hb]; rfl

/-- A trigger at `error` with the `exception=…, hook=…` re-dispatch
arguments contributes no dispatch-loop error events either. -/
theorem triggerFuel_no_agent_error_hookArgs (hooks : HookMap) (f : Nat)
    (ex : PyExc) (i : Nat) :
    ∀ t ∈ (triggerFuel hooks f .error (.excHook ex i)).trace,
      isAgentErrorEvent t = false := by
  intro t ht
  cases t with
  | called i' q b => rfl
  | fired q b =>
    rcases triggerFuel_fired_shape hooks f .error (.excHook ex i) q b ht with
      ⟨hq, hb⟩ | ⟨hq, ex2, i2, hb⟩
    · rw [hq, hb]; rfl
    · rw [hq, hb]; rfl

/-- The observable content of a dispatch-loop error event: the raising
capability's name and the error-stamped state the subscribers received. -/
def errEventInfo : TraceEntry → Option (String × StateV)
  | .fired .error (.excSkillState _ n s) => some (n, s)
  | _ => none

/-- The most recent dispatch-loop error event of a trace (later events
win, matching the last-writer-wins context stamping of the loop). -/
def lastErrEvent : List TraceEntry → Option (String × StateV)
  | [] => none
  | t :: ts => (lastErrEvent ts).orElse (fun _ => errEventInfo t)

/-- The three error-record fields of a state's context. -/
def errRecord (st : StateV) : Option Value × Option Value × Option Value :=
  (dget st.context "error", dget st.context "error_skill",
    dget st.context "error_step")

/-- The error record a trace segment leaves behind, relative to the record
of the state entering the segment: unchanged if the segment fired no
dispatch-loop error event, else exactly the record stamped for the most
recent such event (its state's `error` and `error_step` values, and
`error_skill` equal to the raising capability's name). -/
def recordTarget (o : Option (String × StateV)) (st : StateV) :
    Option Value × Option Value × Option Value :=
  match o with
  | none => errRecord st
  | some (n, s) =>
    (dget s.context "error", some (Value.vstr n), dget s.context "error_step")

/-- The state `st2` leaving a trace segment entered at `st` carries exactly
the record the segment's most recent error event dictates. -/
def errRecordAfter (st2 st : StateV) (tr : List TraceEntry) : Prop :=
  errRecord st2 = recordTarget (lastErrEvent tr) st

/-- Every dispatch-loop error event of the trace names a registered
capability whose transform raises, and the state it carries holds the
error fields stamped with that name. -/
def errEventsSound (skills0 : List SkillM) (tr : List TraceEntry) : Prop :=
  ∀ t ∈ tr, ∀ n s, errEventInfo t = some (n, s) →
    (∃ sk ∈ skills0, sk.name = n ∧ ∃ x e, sk.exec x = SkillOutcome.raises e) ∧
    (dget s.context "error").isSome ∧
    dget s.context "error_skill" = some (Value.vstr n) ∧
    (dget s.context "error_step").isSome

theorem errEventInfo_eq_none (t : TraceEntry)
    (h : isAgentErrorEvent t = false) : errEventInfo t = none := by
  cases t with
  | called i p a => rfl
  | fired p a =>
    cases p <;> cases a <;>
      first
        | rfl
        | exact absurd h (by simp [isAgentErrorEvent])

theorem errEventInfo_isSome (t : TraceEntry)
    (h : isAgentErrorEvent t = true) : (errEventInfo t).isSome = true := by
  cases t with
  | called i p a => cases h
  | fired p a =>
    cases p <;> cases a <;> first | rfl | cases h

theorem lastErrEvent_none (tr : List TraceEntry)
    (h : ∀ t ∈ tr, isAgentErrorEvent t = false) : lastErrEvent tr = none := by
  induction tr with
  | nil => rfl
  | cons t ts ih =>
    have hts := ih (fun x hx => h x (List.mem_cons_of_mem t hx))
    have ht := errEventInfo_eq_none t (h t (List.mem_cons_self t ts))
    show (lastErrEvent ts).orElse (fun _ => errEventInfo t) = none
    rw [hts]
    exact ht

theorem lastErrEvent_append (a b : List TraceEntry) :
    lastErrEvent (a ++ b)
      = (lastErrEvent b).orElse (fun _ => lastErrEvent a) := by
  induction a with
  | nil =>
    show lastErrEvent b = (lastErrEvent b).orElse (fun _ => none)
    cases hb : lastErrEvent b <;> rfl
  | cons t a ih =>
    show (lastErrEvent (a ++ b)).orElse (fun _ => errEventInfo t)
      = (lastErrEvent b).orElse
          (fun _ => (lastErrEvent a).orElse (fun _ => errEventInfo t))
    rw [ih]
    cases hb : lastErrEvent b <;> rfl

theorem lastErrEvent_mem (tr : List TraceEntry) (p : String × StateV)
    (h : lastErrEvent tr = some p) : ∃ t ∈ tr, errEventInfo t = some p := by
  induction tr with
  | nil => cases h
  | cons t ts ih =>
    have h' : (lastErrEvent ts).orElse (fun _ => errEventInfo t) = some p := h
    cases hts : lastErrEvent ts with
    | some q =>
      rw [hts] at h'
      have hq : q = p := by
        have hqq : (some q : Option (String × StateV)) = some p := h'
        injection hqq
      obtain ⟨t2, ht2, he2⟩ := ih (by rw [hts, hq])
      exact ⟨t2, List.mem_cons_of_mem t ht2, he2⟩
    | none =>
      rw [hts] at h'
      exact ⟨t, List.mem_cons_self t ts, h'⟩

theorem lastErrEvent_isSome_of_mem (tr : List TraceEntry) (t : TraceEntry)
    (ht : t ∈ tr) (h : (errEventInfo t).isSome = true) :
    (lastErrEvent tr).isSome = true := by
  induction tr with
  | nil => cases ht
  | cons x ts ih =>
    show ((lastErrEvent ts).orElse (fun _ => errEventInfo x)).isSome = true
    rcases List.mem_cons.mp ht with rfl | hmem
    · cases hts : lastErrEvent ts with
      | none => exact h
      | some q => rfl
    · have hsome := ih hmem
      cases hts : lastErrEvent ts with
      | none => rw [hts] at hsome; cases hsome
      | some q => rfl

theorem errRecord_with_context (st : StateV) (u : Dict)
    (h1 : "error" ∉ dkeys u) (h2 : "error_skill" ∉ dkeys u)
    (h3 : "error_step" ∉ dkeys u) :
    errRecord (st.with_context u) = errRecord st := by
  unfold errRecord
  simp only [with_context_context]
  rw [dget_dupdate_not_mem _ _ _ h1, dget_dupdate_not_mem _ _ _ h2,
    dget_dupdate_not_mem _ _ _ h3]

theorem errRecord_of_context_eq (x r : StateV) (he : r.context = x.context) :
    errRecord r = errRecord x := by
  unfold errRecord
  rw [he]

theorem errRecordAfter_of_none (st2 st : StateV) (tr : List TraceEntry)
    (h1 : errRecord st2 = errRecord st) (h2 : lastErrEvent tr = none) :
    errRecordAfter st2 st tr := by
  unfold errRecordAfter
  rw [h2]
  exact h1

theorem errRecordAfter_append (st st2 st3 : StateV)
    (tr1 tr2 : List TraceEntry) (h1 : errRecordAfter st2 st tr1)
    (h2 : errRecordAfter st3 st2 tr2) :
    errRecordAfter st3 st (tr1 ++ tr2) := by
  unfold errRecordAfter at h1 h2 ⊢
  rw [lastErrEvent_append]
  cases h2l : lastErrEvent tr2 with
  | some p =>
    obtain ⟨n, s⟩ := p
    rw [h2l] at h2
    exact h2
  | none =>
    rw [h2l] at h2
    cases h1l : lastErrEvent tr1 with
    | some q =>
      obtain ⟨n, s⟩ := q
      rw [h1l] at h1
      exact h2.trans h1
    | none =>
      rw [h1l] at h1
      exact h2.trans h1

theorem errEventsSound_no_agent (skills0 : List SkillM)
    (tr : List TraceEntry) (h : ∀ t ∈ tr, isAgentErrorEvent t = false) :
    errEventsSound skills0 tr := by
  intro t ht n s hinfo
  rw [errEventInfo_eq_none t (h t ht)] at hinfo
  cases hinfo

theorem errEventsSound_append (skills0 : List SkillM)
    (a b : List TraceEntry) (ha : errEventsSound skills0 a)
    (hb : errEventsSound skills0 b) : errEventsSound skills0 (a ++ b) := by
  intro t ht n s hinfo
  rcases List.mem_append.mp ht with h | h
  · exact ha t h n s hinfo
  · exact hb t h n s hinfo

/-- A trigger at the `error` point with the dispatch loop's
`exception=…, skill=…, state=…` arguments: its most recent (indeed only)
dispatch-loop error event is its own firing, carrying exactly the given
name and state. -/
theorem triggerFuel_excSkillState_trace (hooks : HookMap) (f : Nat)
    (e : PyExc) (n : String) (s : StateV) :
    lastErrEvent (triggerFuel hooks (f + 1) .error
        (.excSkillState e n s)).trace = some (n, s) ∧
    (∀ t ∈ (triggerFuel hooks (f + 1) .error (.excSkillState e n s)).trace,
      ∀ n2 s2, errEventInfo t = some (n2, s2) → n2 = n ∧ s2 = s) := by
  have htail : ∀ t ∈ (runHooks (fun kw => triggerFuel hooks f .error kw)
      .error (.excSkillState e n s) (hooks .error)).trace,
      isAgentErrorEvent t = false := by
    intro t ht
    cases t with
    | called i q b => rfl
    | fired q b =>
      have hshape := runHooks_fired_shape
        (fun kw => triggerFuel hooks f .error kw) .error
        (.excSkillState e n s) (hooks .error) (by
          intro ex i q' b' hb'
          rcases triggerFuel_fired_shape hooks f .error (.excHook ex i)
            q' b' hb' with ⟨hq', hb'2⟩ | ⟨hq', hb'2⟩
          · exact ⟨hq', ex, i, hb'2⟩
          · exact ⟨hq', hb'2⟩) q b ht
      obtain ⟨hq, ex2, i2, hb⟩ := hshape
      rw [hq, hb]
      rfl
  have h0 : lastErrEvent (runHooks (fun kw => triggerFuel hooks f .error kw)
      .error (.excSkillState e n s) (hooks .error)).trace = none :=
    lastErrEvent_none _ htail
  constructor
  · show (lastErrEvent (runHooks (fun kw => triggerFuel hooks f .error kw)
      .error (.excSkillState e n s) (hooks .error)).trace).orElse
      (fun _ => errEventInfo (.fired .error (.excSkillState e n s)))
      = some (n, s)
    rw [h0]
    rfl
  · intro t ht n2 s2 hinfo
    have ht' : t ∈ (TraceEntry.fired .error (.excSkillState e n s)) ::
        (runHooks (fun kw => triggerFuel hooks f .error kw) .error
          (.excSkillState e n s) (hooks .error)).trace := ht
    rcases List.mem_cons.mp ht' with rfl | hmem
    · have hps : (some (n, s) : Option (String × StateV)) = some (n2, s2) :=
        hinfo
      have hp : (n, s) = (n2, s2) := by injection hps
      exact ⟨(congrArg Prod.fst hp).symm, (congrArg Prod.snd hp).symm⟩
    · rw [errEventInfo_eq_none t (htail t hmem)] at hinfo
      cases hinfo

/-- With benign error subscribers and context-carrying skills, a scan always
completes; the error record it leaves behind is exactly the one of its most
recent error event (unchanged when none fired); and every error event of its
trace names a registered capability whose transform raises, with the stamped
state carrying that record. -/
theorem scanSkills_benign (hooks : HookMap) (fuel : Nat)
    (skills0 : List SkillM) (hb : benignErrorHooks hooks)
    (hcarry : ∀ s ∈ skills0, ∀ x r, s.exec x = .retState r →
      r.context = x.context) :
    ∀ (l : List SkillM), (∀ s ∈ l, s ∈ skills0) →
    ∀ (steps : Nat) (st : StateV) (clock : Nat),
    ∃ st2 ex, (scanSkills hooks (fuel + 2) steps l st clock).res
        = .ok (st2, ex) ∧
      errRecordAfter st2 st (scanSkills hooks (fuel + 2) steps l st
        clock).trace ∧
      errEventsSound skills0 (scanSkills hooks (fuel + 2) steps l st
        clock).trace := by
  intro l
  induction l with
  | nil =>
    intro hsub steps st clock
    refine ⟨st, false, rfl, rfl, ?_⟩
    intro t ht
    cases ht
  | cons sk rest ih =>
    intro hsub steps st clock
    have hsk : sk ∈ skills0 := hsub sk (List.mem_cons_self sk rest)
    have hsub' : ∀ s ∈ rest, s ∈ skills0 :=
      fun s hm => hsub s (List.mem_cons_of_mem sk hm)
    by_cases hc : sk.can_handle st = true
    case neg =>
      obtain ⟨st2, ex, hres, hrec, hsound⟩ := ih hsub' steps st clock
      have hfull : scanSkills hooks (fuel + 2) steps (sk :: rest) st clock
          = scanSkills hooks (fuel + 2) steps rest st clock := by
        simp only [scanSkills, hc, Bool.false_eq_true, if_false]
      rw [hfull]
      exact ⟨st2, ex, hres, hrec, hsound⟩
    case pos =>
      have hrec1 : errRecord (st.with_context [("current_step", .vnat steps),
          ("current_skill", .vstr sk.name),
          ("skill_started_at", .vtime clock)]) = errRecord st :=
        errRecord_with_context st _
          (by simp [dkeys]) (by simp [dkeys]) (by simp [dkeys])
      have ht1ab : (triggerFuel hooks (fuel + 2) .skill_start
          (.skillState sk.name (st.with_context [("current_step", .vnat steps),
            ("current_skill", .vstr sk.name),
            ("skill_started_at", .vtime clock)]))).aborted = false :=
        triggerFuel_ok hooks hb fuel _ _
      have ht1no := triggerFuel_no_agent_error hooks (fuel + 2) .skill_start
        (.skillState sk.name (st.with_context [("current_step", .vnat steps),
          ("current_skill", .vstr sk.name),
          ("skill_started_at", .vtime clock)])) (by intro h; cases h)
      have ht1none : lastErrEvent (triggerFuel hooks (fuel + 2) .skill_start
          (.skillState sk.name (st.with_context [("current_step", .vnat steps),
            ("current_skill", .vstr sk.name),
            ("skill_started_at", .vtime clock)]))).trace = none :=
        lastErrEvent_none _ ht1no
      cases hex : sk.exec (st.with_context [("current_step", .vnat steps),
          ("current_skill", .vstr sk.name),
          ("skill_started_at", .vtime clock)]) with
      | retNone =>
        obtain ⟨st2, ex, hres, hrec, hsound⟩ := ih hsub' steps
          (st.with_context [("current_step", .vnat steps),
            ("current_skill", .vstr sk.name),
            ("skill_started_at", .vtime clock)]) (clock + 1)
        cases hout : scanSkills hooks (fuel + 2) steps rest
            (st.with_context [("current_step", .vnat steps),
              ("current_skill", .vstr sk.name),
              ("skill_started_at", .vtime clock)]) (clock + 1) with
        | mk tr2 c2 r2 =>
          rw [hout] at hres hrec hsound
          simp only at hres hrec hsound
          subst hres
          have hfull : scanSkills hooks (fuel + 2) steps (sk :: rest) st clock
              = ⟨(triggerFuel hooks (fuel + 2) .skill_start
                  (.skillState sk.name (st.with_context
                    [("current_step", .vnat steps),
                      ("current_skill", .vstr sk.name),
                      ("skill_started_at", .vtime clock)]))).trace ++ tr2,
                c2, .ok (st2, ex)⟩ := by
            simp only [scanSkills, hc, if_true, ht1ab, Bool.false_eq_true,
              if_false, hex, hout]
          rw [hfull]
          refine ⟨st2, ex, rfl, ?_, ?_⟩
          · exact errRecordAfter_append st _ st2 _ tr2
              (errRecordAfter_of_none _ st _ hrec1 ht1none) hrec
          · exact errEventsSound_append skills0 _ tr2
              (errEventsSound_no_agent skills0 _ ht1no) hsound
      | retState new =>
        have hnewctx : new.context = (st.with_context
            [("current_step", .vnat steps), ("current_skill", .vstr sk.name),
              ("skill_started_at", .vtime clock)]).context :=
          hcarry sk hsk _ new hex
        have ht2ab : (triggerFuel hooks (fuel + 2) .skill_end
            (.skillState sk.name (new.with_context
              [("last_skill", .vstr sk.name), ("last_step", .vnat steps),
                ("skill_completed_at", .vtime (clock + 1))]))).aborted = false :=
          triggerFuel_ok hooks hb fuel _ _
        have ht2no := triggerFuel_no_agent_error hooks (fuel + 2) .skill_end
          (.skillState sk.name (new.with_context
            [("last_skill", .vstr sk.name), ("last_step", .vnat steps),
              ("skill_completed_at", .vtime (clock + 1))]))
          (by intro h; cases h)
        have hfull : scanSkills hooks (fuel + 2) steps (sk :: rest) st clock
            = ⟨(triggerFuel hooks (fuel + 2) .skill_start
                (.skillState sk.name (st.with_context
                  [("current_step", .vnat steps),
                    ("current_skill", .vstr sk.name),
                    ("skill_started_at", .vtime clock)]))).trace ++
                (triggerFuel hooks (fuel + 2) .skill_end
                  (.skillState sk.name (new.with_context
                    [("last_skill", .vstr sk.name), ("last_step", .vnat steps),
                      ("skill_completed_at", .vtime (clock + 1))]))).trace,
              clock + 1 + 1,
              .ok (new.with_context [("last_skill", .vstr sk.name),
                ("last_step", .vnat steps),
                ("skill_completed_at", .vtime (clock + 1))], true)⟩ := by
          simp only [scanSkills, hc, if_true, ht1ab, Bool.false_eq_true,
            if_false, hex, ht2ab]
        rw [hfull]
        refine ⟨new.with_context [("last_skill", .vstr sk.name),
          ("last_step", .vnat steps),
          ("skill_completed_at", .vtime (clock + 1))], true, rfl, ?_, ?_⟩
        · refine errRecordAfter_of_none _ st _ ?_ ?_
          · calc errRecord (new.with_context [("last_skill", .vstr sk.name),
                ("last_step", .vnat steps),
                ("skill_completed_at", .vtime (clock + 1))])
                = errRecord new := errRecord_with_context new _
                  (by simp [dkeys]) (by simp [dkeys]) (by simp [dkeys])
              _ = errRecord (st.with_context [("current_step", .vnat steps),
                  ("current_skill", .vstr sk.name),
                  ("skill_started_at", .vtime clock)]) :=
                errRecord_of_context_eq _ new hnewctx
              _ = errRecord st := hrec1
          · refine lastErrEvent_none _ ?_
            intro t ht
            rcases List.mem_append.mp ht with ht | ht
            · exact ht1no t ht
            · exact ht2no t ht
        · exact errEventsSound_append skills0 _ _
            (errEventsSound_no_agent skills0 _ ht1no)
            (errEventsSound_no_agent skills0 _ ht2no)
      | raises e =>
        have hEab : (triggerFuel hooks (fuel + 2) .error
            (.excSkillState e sk.name ((st.with_context
              [("current_step", .vnat steps), ("current_skill", .vstr sk.name),
                ("skill_started_at", .vtime clock)]).with_context
              [("error", .vstr e.toStr), ("error_skill", .vstr sk.name),
                ("error_step", .vnat steps)]))).aborted = false :=
          triggerFuel_ok hooks hb fuel _ _
        have hEfacts := triggerFuel_excSkillState_trace hooks (fuel + 1) e
          sk.name ((st.with_context [("current_step", .vnat steps),
            ("current_skill", .vstr sk.name),
            ("skill_started_at", .vtime clock)]).with_context
            [("error", .vstr e.toStr), ("error_skill", .vstr sk.name),
              ("error_step", .vnat steps)])
        obtain ⟨st2, ex, hres, hrec, hsound⟩ := ih hsub' steps
          ((st.with_context [("current_step", .vnat steps),
            ("current_skill", .vstr sk.name),
            ("skill_started_at", .vtime clock)]).with_context
            [("error", .vstr e.toStr), ("error_skill", .vstr sk.name),
              ("error_step", .vnat steps)]) (clock + 1)
        cases hout : scanSkills hooks (fuel + 2) steps rest
            ((st.with_context [("current_step", .vnat steps),
              ("current_skill", .vstr sk.name),
              ("skill_started_at", .vtime clock)]).with_context
              [("error", .vstr e.toStr), ("error_skill", .vstr sk.name),
                ("error_step", .vnat steps)]) (clock + 1) with
        | mk tr2 c2 r2 =>
          rw [hout] at hres hrec hsound
          simp only at hres hrec hsound
          subst hres
          have hfull : scanSkills hooks (fuel + 2) steps (sk :: rest) st clock
              = ⟨((triggerFuel hooks (fuel + 2) .skill_start
                    (.skillState sk.name (st.with_context
                      [("current_step", .vnat steps),
                        ("current_skill", .vstr sk.name),
                        ("skill_started_at", .vtime clock)]))).trace ++
                  (triggerFuel hooks (fuel + 2) .error
                    (.excSkillState e sk.name ((st.with_context
                      [("current_step", .vnat steps),
                        ("current_skill", .vstr sk.name),
                        ("skill_started_at", .vtime clock)]).with_context
                      [("error", .vstr e.toStr),
                        ("error_skill", .vstr sk.name),
                        ("error_step", .vnat steps)]))).trace) ++ tr2,
                c2, .ok (st2, ex)⟩ := by
            simp only [scanSkills, hc, if_true, ht1ab, Bool.false_eq_true,
              if_false, hex, handleErr, hEab, hout]
          rw [hfull]
          refine ⟨st2, ex, rfl, ?_, ?_⟩
          · refine errRecordAfter_append st _ st2 _ tr2 ?_ hrec
            refine errRecordAfter_append st _ _ _ _
              (errRecordAfter_of_none _ st _ hrec1 ht1none) ?_
            unfold errRecordAfter
            rw [hEfacts.1]
            show (dget ((st.with_context [("current_step", .vnat steps),
                ("current_skill", .vstr sk.name),
                ("skill_started_at", .vtime clock)]).with_context
                [("error", .vstr e.toStr), ("error_skill", .vstr sk.name),
                  ("error_step", .vnat steps)]).context "error",
              dget ((st.with_context [("current_step", .vnat steps),
                ("current_skill", .vstr sk.name),
                ("skill_started_at", .vtime clock)]).with_context
                [("error", .vstr e.toStr), ("error_skill", .vstr sk.name),
                  ("error_step", .vnat steps)]).context "error_skill",
              dget ((st.with_context [("current_step", .vnat steps),
                ("current_skill", .vstr sk.name),
                ("skill_started_at", .vtime clock)]).with_context
                [("error", .vstr e.toStr), ("error_skill", .vstr sk.name),
                  ("error_step", .vnat steps)]).context "error_step")
              = (dget ((st.with_context [("current_step", .vnat steps),
                ("current_skill", .vstr sk.name),
                ("skill_started_at", .vtime clock)]).with_context
                [("error", .vstr e.toStr), ("error_skill", .vstr sk.name),
                  ("error_step", .vnat steps)]).context "error",
              some (Value.vstr sk.name),
              dget ((st.with_context [("current_step", .vnat steps),
                ("current_skill", .vstr sk.name),
                ("skill_started_at", .vtime clock)]).with_context
                [("error", .vstr e.toStr), ("error_skill", .vstr sk.name),
                  ("error_step", .vnat steps)]).context "error_step")
            have hmid : dget ((st.with_context [("current_step", .vnat steps),
                ("current_skill", .vstr sk.name),
                ("skill_started_at", .vtime clock)]).with_context
                [("error", .vstr e.toStr), ("error_skill", .vstr sk.name),
                  ("error_step", .vnat steps)]).context "error_skill"
                = some (Value.vstr sk.name) := by
              simp [dget_dset]
            rw [hmid]
          · refine errEventsSound_append skills0 _ tr2 ?_ hsound
            refine errEventsSound_append skills0 _ _
              (errEventsSound_no_agent skills0 _ ht1no) ?_
            intro t ht n s hinfo
            obtain ⟨hn, hs⟩ := hEfacts.2 t ht n s hinfo
            rw [hn, hs]
            refine ⟨⟨sk, hsk, rfl, ⟨st.with_context
              [("current_step", .vnat steps),
                ("current_skill", .vstr sk.name),
                ("skill_started_at", .vtime clock)], e, hex⟩⟩, ?_, ?_, ?_⟩
              <;> simp [dget_dset]

/-- The loop-level version of `scanSkills_benign`. -/
theorem dispatchLoop_benign (hooks : HookMap) (fuel : Nat)
    (skills0 : List SkillM) (hb : benignErrorHooks hooks)
    (hcarry : ∀ s ∈ skills0, ∀ x r, s.exec x = .retState r →
      r.context = x.context) :
    ∀ (budget steps clock : Nat) (st : StateV),
    ∃ stF, (dispatchLoop hooks (fuel + 2) skills0 budget steps clock st).res
        = .ok stF ∧
      errRecordAfter stF st (dispatchLoop hooks (fuel + 2) skills0 budget
        steps clock st).trace ∧
      errEventsSound skills0 (dispatchLoop hooks (fuel + 2) skills0 budget
        steps clock st).trace := by
  intro budget
  induction budget with
  | zero =>
    intro steps clock st
    refine ⟨st, rfl, rfl, ?_⟩
    intro t ht
    cases ht
  | succ budget ih =>
    intro steps clock st
    obtain ⟨st2, ex, hres, hrec, hsound⟩ := scanSkills_benign hooks fuel
      skills0 hb hcarry skills0 (fun s h => h) steps st clock
    cases hscan : scanSkills hooks (fuel + 2) steps skills0 st clock with
    | mk tr c r =>
      rw [hscan] at hres hrec hsound
      simp only at hres hrec hsound
      subst hres
      cases ex with
      | false =>
        have htr : (dispatchLoop hooks (fuel + 2) skills0 (budget + 1) steps
            clock st).trace = tr := by
          simp [dispatchLoop, hscan]
        refine ⟨st2, ?_, ?_, ?_⟩
        · simp [dispatchLoop, hscan]
        · rw [htr]; exact hrec
        · rw [htr]; exact hsound
      | true =>
        obtain ⟨stF, hres2, hrec2, hsound2⟩ := ih (steps + 1) c st2
        have htr : (dispatchLoop hooks (fuel + 2) skills0 (budget + 1) steps
            clock st).trace = tr ++ (dispatchLoop hooks (fuel + 2) skills0
              budget (steps + 1) c st2).trace := by
          simp [dispatchLoop, hscan]
        refine ⟨stF, ?_, ?_, ?_⟩
        · simp [dispatchLoop, hscan, hres2]
        · rw [htr]
          exact errRecordAfter_append st st2 stF tr _ hrec hrec2
        · rw [htr]
          exact errEventsSound_append skills0 tr _ hsound hsound2

/-- C3 (amended): provided no on-error subscriber itself raises and every
capability's transform carries the incoming context through (as the
repository's skills do), `run` never raises — neither when a capability's
transform raises nor when any other subscriber callback fails — and always
returns a state; whenever some transform raised during the run, the
returned state's context records the MOST RECENT such failure: `error` and
`error_step` as stamped for it, and `error_skill` equal to the name of the
registered capability whose transform raised (all three present); and the
dispatch loop's error event fires exactly when a transform raises, so a
fired error event guarantees such a most recent failure exists. -/
theorem run_recovers_failures (hooks : HookMap) (skills : List SkillM)
    (fuel : Nat) (st0 : StateV) (ms : Nat) (extra : Dict) (clock : Nat)
    (hb : benignErrorHooks hooks)
    (hcarry : ∀ s ∈ skills, ∀ x r, s.exec x = .retState r →
      r.context = x.context) :
    ∃ fin, (execute hooks (fuel + 2) skills st0 ms extra clock).res
        = .ok fin ∧
      (∀ n s, lastErrEvent (execute hooks (fuel + 2) skills st0 ms extra
          clock).trace = some (n, s) →
        dget fin.context "error_skill" = some (.vstr n) ∧
        (∃ sk ∈ skills, sk.name = n ∧ ∃ x e, sk.exec x
          = SkillOutcome.raises e) ∧
        dget fin.context "error" = dget s.context "error" ∧
        dget fin.context "error_step" = dget s.context "error_step" ∧
        (dget fin.context "error").isSome ∧
        (dget fin.context "error_step").isSome) ∧
      ((∃ t ∈ (execute hooks (fuel + 2) skills st0 ms extra clock).trace,
          isAgentErrorEvent t = true) →
        ∃ n s, lastErrEvent (execute hooks (fuel + 2) skills st0 ms extra
          clock).trace = some (n, s)) := by
  have hPreAb : (triggerFuel hooks (fuel + 2) .pre_execute
      (.state st0)).aborted = false := triggerFuel_ok hooks hb fuel _ _
  have hPreNo := triggerFuel_no_agent_error hooks (fuel + 2) .pre_execute
    (.state st0) (by intro h; cases h)
  obtain ⟨stF, hresL, hrecL, hsoundL⟩ := dispatchLoop_benign hooks fuel skills
    hb hcarry ms 0 (clock + 1)
    ((if extra.isEmpty then st0 else st0.with_context extra).with_context
      [("execution_started_at", .vtime clock), ("max_steps", .vnat ms)])
  cases hl : dispatchLoop hooks (fuel + 2) skills ms 0 (clock + 1)
      ((if extra.isEmpty then st0 else st0.with_context extra).with_context
        [("execution_started_at", .vtime clock), ("max_steps", .vnat ms)]) with
  | mk tr c s r =>
    rw [hl] at hresL hrecL hsoundL
    simp only at hresL hrecL hsoundL
    subst hresL
    simp only [List.isEmpty_eq_true] at hl
    have hPostAb : (triggerFuel hooks (fuel + 2) .post_execute
        (.state (stF.with_context [("execution_completed_at", .vtime c),
          ("total_steps", .vnat s)]))).aborted = false :=
      triggerFuel_ok hooks hb fuel _ _
    have hPostNo := triggerFuel_no_agent_error hooks (fuel + 2) .post_execute
      (.state (stF.with_context [("execution_completed_at", .vtime c),
        ("total_steps", .vnat s)])) (by intro h; cases h)
    have htrace : (execute hooks (fuel + 2) skills st0 ms extra clock).trace
        = (triggerFuel hooks (fuel + 2) .pre_execute (.state st0)).trace
          ++ tr ++ (triggerFuel hooks (fuel + 2) .post_execute
            (.state (stF.with_context [("execution_completed_at", .vtime c),
              ("total_steps", .vnat s)]))).trace := by
      simp [execute, hPreAb, hl, hPostAb]
    have hle : lastErrEvent (execute hooks (fuel + 2) skills st0 ms extra
        clock).trace = lastErrEvent tr := by
      rw [htrace, lastErrEvent_append, lastErrEvent_append,
        lastErrEvent_none _ hPostNo, lastErrEvent_none _ hPreNo]
      cases h2 : lastErrEvent tr <;> rfl
    have hfinrec : errRecord (stF.with_context
        [("execution_completed_at", .vtime c), ("total_steps", .vnat s)])
        = errRecord stF :=
      errRecord_with_context stF _
        (by simp [dkeys]) (by simp [dkeys]) (by simp [dkeys])
    refine ⟨stF.with_context [("execution_completed_at", .vtime c),
      ("total_steps", .vnat s)], ?_, ?_, ?_⟩
    · simp [execute, hPreAb, hl, hPostAb]
    · intro n sv hns
      rw [hle] at hns
      unfold errRecordAfter at hrecL
      rw [hns] at hrecL
      simp only [recordTarget] at hrecL
      have hrec2 : errRecord (stF.with_context
          [("execution_completed_at", .vtime c), ("total_steps", .vnat s)])
          = (dget sv.context "error", some (Value.vstr n),
            dget sv.context "error_step") := hfinrec.trans hrecL
      unfold errRecord at hrec2
      rw [Prod.mk.injEq, Prod.mk.injEq] at hrec2
      obtain ⟨herr, hskill, hstep⟩ := hrec2
      obtain ⟨t, htmem, hinfo⟩ := lastErrEvent_mem tr (n, sv) hns
      obtain ⟨hraiser, hesome, -, hssome⟩ := hsoundL t htmem n sv hinfo
      refine ⟨hskill, hraiser, herr, hstep, ?_, ?_⟩
      · rw [herr]; exact hesome
      · rw [hstep]; exact hssome
    · intro hth
      rw [htrace] at hth
      obtain ⟨t, ht, hev⟩ := hth
      have hmem : t ∈ tr := by
        rcases List.mem_append.mp ht with ht | ht
        · rcases List.mem_append.mp ht with ht | ht
          · rw [hPreNo t ht] at hev; cases hev
          · exact ht
        · rw [hPostNo t ht] at hev; cases hev
      have hsome : (lastErrEvent tr).isSome = true :=
        lastErrEvent_isSome_of_mem tr t hmem (errEventInfo_isSome t hev)
      rw [hle]
      obtain ⟨p, hp⟩ := Option.isSome_iff_exists.mp hsome
      exact ⟨p.1, p.2, by rw [hp]⟩

/-- A capability whose transform always raises `ValueError("Test error")`
(the shape of the repository's `ErrorSkill` test fixture). -/
def errSkillW : SkillM :=
  { name := "ErrorSkill", input_type := some tyQuery,
    exec := fun _ => .raises (.valueError "Test error") }

/-- A capability that succeeds but returns a `State` built without carrying
the incoming context (`return State(result)`, as the example skills do). -/
def dropSkillW : SkillM :=
  { name := "DropSkill", input_type := some tyQuery,
    exec := fun _ => .retState ⟨PyVal.model tyFinal 3, [], []⟩ }

/-- Counterexample to C3 as stated, at two explicit inputs.  First: with a
`pre_execute` subscriber that raises and an `error` subscriber that raises,
`run` raises `RecursionError` (at Python's default stack budget of 1000) —
so `run` does not "never raise when a subscriber callback fails".  Second:
with capabilities `[always-raising, context-dropping]` and no subscribers,
the loop fired its error event exactly once (a transform raised during the
run), yet the returned state's context has no `error` key — the successful
context-dropping transform replaced the state wholesale. -/
theorem run_error_claim_counterexample :
    (execute guardBugHooks 1000 [] ⟨PyVal.model tyQuery 0, [], []⟩ 10 []
        0).res = .error .recursionError ∧
    (execute emptyHooks 2 [errSkillW, dropSkillW]
        ⟨PyVal.model tyQuery 0, [], []⟩ 10 [] 0).trace.countP isFiredError
        = 1 ∧
    (execute emptyHooks 2 [errSkillW, dropSkillW]
        ⟨PyVal.model tyQuery 0, [], []⟩ 10 [] 0).res.toOption.map
        (fun f => dget f.context "error") = some none := by
  refine ⟨?_, by decide, by decide⟩
  have h := guardBug_pre_aborts 1000 ⟨PyVal.model tyQuery 0, [], []⟩
  simp [execute, h]

/-- The bus of the C3 witness: one raising `pre_execute` subscriber, no
`error` subscribers. -/
def witnessHooks : HookMap := fun p =>
  match p with
  | .pre_execute => [failingPreHook]
  | _ => []

/-- Witness for C3 (amended) at a concrete run: a raising non-error
subscriber plus an always-raising capability; the run completes and the
final context records `error_skill = "ErrorSkill"` — the name of the
capability whose transform raised — together with `error` and
`error_step`. -/
theorem run_recovers_failures_witness :
    ∃ fin, (execute witnessHooks 2 [errSkillW]
        ⟨PyVal.model tyQuery 0, [], []⟩ 10 [] 0).res = .ok fin ∧
      dget fin.context "error_skill" = some (.vstr "ErrorSkill") ∧
      (dget fin.context "error").isSome ∧
      (dget fin.context "error_step").isSome := by
  obtain ⟨fin, h1, h2, h3⟩ := run_recovers_failures witnessHooks [errSkillW] 0
    ⟨PyVal.model tyQuery 0, [], []⟩ 10 [] 0
    (by intro hk hm kw; cases hm)
    (by
      intro s hs x r h
      rw [List.mem_singleton] at hs
      subst hs
      exact absurd h (by simp [errSkillW]))
  obtain ⟨n, sv, hns⟩ := h3 (by decide)
  obtain ⟨hskill, ⟨sk, hsk, hname, -⟩, -, -, hesome, hssome⟩ := h2 n sv hns
  rw [List.mem_singleton] at hsk
  subst hsk
  refine ⟨fin, h1, ?_, hesome, hssome⟩
  rw [hskill, ← hname]
  rfl

end Waspnest
